import Mathlib

/-!
Verification of the Memory-Management-Simulator core engines against their
natural-language specification.  The C++ sources are shallowly embedded:
each simulator object becomes a Lean structure, each member function a pure
Lean function from state to state.  Machine integers are modelled as Nat
(counters, sizes, addresses) or Int (sentinel -1 values), matching the
observable behaviour of the source on all inputs the claims range over.
-/

set_option maxRecDepth 4000

/-! # Virtual memory simulator (src/virtual_memory/virtual_memory_simulator.cpp) -/

/-- Page table entry, from virtual_memory_simulator.h.  The default
constructor gives valid=false, frame_number=-1, dirty=false, times 0. -/
structure PageTableEntry where
  valid : Bool
  frame_number : Int
  dirty : Bool
  last_access_time : Nat
  load_time : Nat
  access_count : Nat
deriving DecidableEq, Repr

def PageTableEntry.init : PageTableEntry :=
  { valid := false, frame_number := -1, dirty := false,
    last_access_time := 0, load_time := 0, access_count := 0 }

inductive PageReplacementPolicy where
  | FIFO
  | LRU
deriving DecidableEq, Repr

/-- State of VirtualMemorySimulator: configuration, page table, frame
tracking arrays, statistics, and the verbose flag. -/
structure VMState where
  virtual_memory_size : Nat
  physical_memory_size : Nat
  page_size : Nat
  num_virtual_pages : Nat
  num_physical_frames : Nat
  policy : PageReplacementPolicy
  page_table : List PageTableEntry
  frame_to_page : List Int
  frame_used : List Bool
  page_faults : Nat
  page_hits : Nat
  total_accesses : Nat
  disk_reads : Nat
  disk_writes : Nat
  current_time : Nat
  verbose : Bool
deriving DecidableEq, Repr

/-- Constructor VirtualMemorySimulator::VirtualMemorySimulator.  Clamps the
frame count down to the page count when physical exceeds virtual. -/
def vmInit (vm_size pm_size pg_size : Nat) (policy : PageReplacementPolicy) : VMState :=
  let nvp := vm_size / pg_size
  let npf0 := pm_size / pg_size
  let npf := if npf0 > nvp then nvp else npf0
  let pm := if npf0 > nvp then nvp * pg_size else pm_size
  { virtual_memory_size := vm_size, physical_memory_size := pm, page_size := pg_size,
    num_virtual_pages := nvp, num_physical_frames := npf, policy := policy,
    page_table := List.replicate nvp PageTableEntry.init,
    frame_to_page := List.replicate npf (-1),
    frame_used := List.replicate npf false,
    page_faults := 0, page_hits := 0, total_accesses := 0,
    disk_reads := 0, disk_writes := 0, current_time := 0, verbose := false }

/-- VirtualMemorySimulator::findFreeFrame - lowest-index unused frame, -1
if none. -/
def vmFindFreeFrame (s : VMState) : Int :=
  match s.frame_used.findIdx? (fun u => !u) with
  | some i => (i : Int)
  | none => -1

/-- VirtualMemorySimulator::selectVictimPage - scan the frames; FIFO picks
the valid page minimising load_time, LRU the one minimising
last_access_time; the scan initialises the minimum with INT32_MAX. -/
def vmSelectVictimPage (s : VMState) : Int :=
  match s.policy with
  | .FIFO =>
    (s.frame_to_page.foldl
      (fun (acc : Int × Nat) p =>
        let pte := s.page_table.getD p.toNat PageTableEntry.init
        if p != -1 && pte.valid && pte.load_time < acc.2
        then (p, pte.load_time) else acc)
      (-1, 2 ^ 31 - 1)).1
  | .LRU =>
    (s.frame_to_page.foldl
      (fun (acc : Int × Nat) p =>
        let pte := s.page_table.getD p.toNat PageTableEntry.init
        if p != -1 && pte.valid && pte.last_access_time < acc.2
        then (p, pte.last_access_time) else acc)
      (-1, 2 ^ 31 - 1)).1

/-- VirtualMemorySimulator::evictPage.  Note the source increments
disk_writes once inside the verbose printing block and once again in the
unconditional dirty branch; the embedding keeps both increments. -/
def vmEvictPage (s : VMState) (page_number : Nat) : Int × VMState :=
  let pte := s.page_table.getD page_number PageTableEntry.init
  if !pte.valid then (-1, s)
  else
    let frame := pte.frame_number
    let s := if s.verbose && pte.dirty
             then { s with disk_writes := s.disk_writes + 1 } else s
    let s := if pte.dirty
             then { s with disk_writes := s.disk_writes + 1 } else s
    let pte' := { pte with valid := false, frame_number := -1, dirty := false }
    let s := { s with
      page_table := s.page_table.set page_number pte',
      frame_to_page := s.frame_to_page.set frame.toNat (-1),
      frame_used := s.frame_used.set frame.toNat false }
    (frame, s)

/-- VirtualMemorySimulator::loadPage. -/
def vmLoadPage (s : VMState) (page_number frame_number : Nat) : VMState :=
  let pte := s.page_table.getD page_number PageTableEntry.init
  let s := { s with disk_reads := s.disk_reads + 1 }
  let pte' := { pte with
    valid := true
    frame_number := (frame_number : Int)
    dirty := false
    load_time := s.current_time
    last_access_time := s.current_time
    access_count := pte.access_count + 1 }
  { s with
    page_table := s.page_table.set page_number pte',
    frame_to_page := s.frame_to_page.set frame_number (page_number : Int),
    frame_used := s.frame_used.set frame_number true }

/-- VirtualMemorySimulator::handlePageFault. -/
def vmHandlePageFault (s : VMState) (page_number : Nat) : VMState :=
  let free_frame := vmFindFreeFrame s
  if free_frame == -1 then
    let victim := vmSelectVictimPage s
    if victim == -1 then s
    else
      let r := vmEvictPage s victim.toNat
      vmLoadPage r.2 page_number r.1.toNat
  else
    vmLoadPage s page_number free_frame.toNat

/-- VirtualMemorySimulator::translateAddress.  Returns -1 on an
out-of-range virtual address (after bumping total_accesses and the
clock), else the physical address. -/
def vmTranslateAddress (s : VMState) (va : Nat) : Int × VMState :=
  let s := { s with total_accesses := s.total_accesses + 1,
                    current_time := s.current_time + 1 }
  if s.virtual_memory_size ≤ va then (-1, s)
  else
    let page_number := va / s.page_size
    let offset := va % s.page_size
    let pte := s.page_table.getD page_number PageTableEntry.init
    if pte.valid then
      let pte' := { pte with
        last_access_time := s.current_time
        access_count := pte.access_count + 1 }
      let s := { s with
        page_hits := s.page_hits + 1
        page_table := s.page_table.set page_number pte' }
      (pte.frame_number * (s.page_size : Int) + (offset : Int), s)
    else
      let s := { s with page_faults := s.page_faults + 1 }
      let s := vmHandlePageFault s page_number
      let pte2 := s.page_table.getD page_number PageTableEntry.init
      (pte2.frame_number * (s.page_size : Int) + (offset : Int), s)

/-- Run a sequence of translateAddress calls, discarding the returned
physical addresses (this is also what VirtualMemorySimulator::access
does). -/
def vmRun (s : VMState) : List Nat → VMState
  | [] => s
  | a :: rest => vmRun (vmTranslateAddress s a).2 rest

/-- The access and fault statistics of a VM state, bundled for frame
lemmas: page hits, page faults, total accesses, virtual memory size. -/
def vmStats (s : VMState) : Nat × Nat × Nat × Nat :=
  (s.page_hits, s.page_faults, s.total_accesses, s.virtual_memory_size)

/-- A VM state whose page table holds no dirty entry and that has issued
no disk write. -/
def vmClean (s : VMState) : Prop :=
  s.page_table.all (fun pte => !pte.dirty) = true ∧ s.disk_writes = 0

/-- A page-table entry that is resident and dirty (the state the
dirty-eviction branch of evictPage is written for). -/
def c4DirtyPTE : PageTableEntry :=
  { valid := true, frame_number := 0, dirty := true,
    last_access_time := 1, load_time := 1, access_count := 1 }

/-- A VM configuration (16-byte virtual space, 2 frames, page size 4) in
verbose mode whose page 0 is resident in frame 0 and dirty. -/
def c4FailingVM : VMState :=
  { vmInit 16 8 4 .FIFO with
    verbose := true
    page_table := [c4DirtyPTE, PageTableEntry.init, PageTableEntry.init,
                   PageTableEntry.init]
    frame_to_page := [0, -1]
    frame_used := [true, false] }

/-! # Cache level (src/cache/cache_simulator.cpp, class Cache) -/

inductive ReplacementPolicy where
  | FIFO
  | LRU
deriving DecidableEq, Repr

inductive WritePolicy where
  | WRITE_THROUGH
  | WRITE_BACK
deriving DecidableEq, Repr

inductive AssociativityType where
  | DIRECT_MAPPED
  | TWO_WAY
  | FOUR_WAY
  | FULLY_ASSOCIATIVE
deriving DecidableEq, Repr

/-- A cache line; the default constructor clears valid and dirty and zeroes
tag and both timestamps. -/
structure CacheLine where
  valid : Bool
  tag : Nat
  dirty : Bool
  insertion_order : Nat
  last_access_time : Nat
deriving DecidableEq, Repr

def CacheLine.initLine : CacheLine :=
  { valid := false, tag := 0, dirty := false,
    insertion_order := 0, last_access_time := 0 }

/-- One cache level (class Cache).  The name string is display-only in the
source and is dropped here. -/
structure Cache where
  capacity : Nat
  block_size : Nat
  associativity : AssociativityType
  replacement_policy : ReplacementPolicy
  write_policy : WritePolicy
  num_sets : Nat
  ways : Nat
  cache : List (List CacheLine)
  next_insertion_order : Nat
  access_counter : Nat
  hits : Nat
  misses : Nat
  writes : Nat
  write_hits : Nat
  write_misses : Nat
  writebacks : Nat
deriving DecidableEq, Repr

/-- Constructor Cache::Cache: derive (ways, num_sets) from the
associativity and initialise every line with the default constructor. -/
def Cache.create (total_lines blk_size : Nat) (assoc : AssociativityType)
    (repl_pol : ReplacementPolicy) (wr_pol : WritePolicy) : Cache :=
  let ws := match assoc with
    | .DIRECT_MAPPED => 1
    | .TWO_WAY => 2
    | .FOUR_WAY => 4
    | .FULLY_ASSOCIATIVE => total_lines
  let ns := match assoc with
    | .DIRECT_MAPPED => total_lines
    | .TWO_WAY => total_lines / 2
    | .FOUR_WAY => total_lines / 4
    | .FULLY_ASSOCIATIVE => 1
  { capacity := total_lines, block_size := blk_size, associativity := assoc,
    replacement_policy := repl_pol, write_policy := wr_pol,
    num_sets := ns, ways := ws,
    cache := List.replicate ns (List.replicate ws CacheLine.initLine),
    next_insertion_order := 0, access_counter := 0,
    hits := 0, misses := 0, writes := 0, write_hits := 0, write_misses := 0,
    writebacks := 0 }

/-- Cache::getSetIndex. -/
def Cache.getSetIndex (c : Cache) (address : Nat) : Nat :=
  (address / c.block_size) % c.num_sets

/-- Cache::getTag. -/
def Cache.getTag (c : Cache) (address : Nat) : Nat :=
  (address / c.block_size) / c.num_sets

/-- Cache::findFIFOVictimInSet - way with the smallest insertion_order
(strict comparison, so the lowest-index way wins ties; starting the scan
at way 0 instead of way 1 changes nothing). -/
def Cache.findFIFOVictimInSet (c : Cache) (set_index : Nat) : Nat :=
  let s := c.cache.getD set_index []
  (s.enum.foldl
    (fun (acc : Nat × Nat) p =>
      if p.2.insertion_order < acc.2 then (p.1, p.2.insertion_order) else acc)
    (0, (s.getD 0 CacheLine.initLine).insertion_order)).1

/-- Cache::findLRUVictimInSet - way with the smallest last_access_time. -/
def Cache.findLRUVictimInSet (c : Cache) (set_index : Nat) : Nat :=
  let s := c.cache.getD set_index []
  (s.enum.foldl
    (fun (acc : Nat × Nat) p =>
      if p.2.last_access_time < acc.2 then (p.1, p.2.last_access_time) else acc)
    (0, (s.getD 0 CacheLine.initLine).last_access_time)).1

/-- Cache::findVictimInSet - first invalid way if any, else by policy. -/
def Cache.findVictimInSet (c : Cache) (set_index : Nat) : Nat :=
  let s := c.cache.getD set_index []
  match s.findIdx? (fun l => !l.valid) with
  | some way => way
  | none =>
    match c.replacement_policy with
    | .FIFO => c.findFIFOVictimInSet set_index
    | .LRU => c.findLRUVictimInSet set_index

/-- The first way of the set holding a valid line with the given tag (the
source scans ways in order and stops at the first match). -/
def Cache.findHitWay (c : Cache) (set_index : Nat) (tag : Nat) : Option Nat :=
  (c.cache.getD set_index []).findIdx? (fun l => l.valid && l.tag == tag)

/-- Cache::read - returns (hit?, new state).  Never installs or evicts a
line; on an LRU hit it refreshes the matched line's last_access_time. -/
def Cache.read (c : Cache) (address : Nat) : Bool × Cache :=
  let c := { c with access_counter := c.access_counter + 1 }
  let set_index := c.getSetIndex address
  let tag := c.getTag address
  let s := c.cache.getD set_index []
  match c.findHitWay set_index tag with
  | some way =>
    let c := { c with hits := c.hits + 1 }
    let c :=
      if c.replacement_policy == .LRU then
        let line := { s.getD way CacheLine.initLine with
          last_access_time := c.access_counter }
        { c with cache := c.cache.set set_index (s.set way line) }
      else c
    (true, c)
  | none => (false, { c with misses := c.misses + 1 })

/-- Cache::write - returns (hit?, new state).  Write-allocates on a miss;
the victim's dirty write-back is counted only for a WRITE_BACK level. -/
def Cache.write (c : Cache) (address : Nat) : Bool × Cache :=
  let c := { c with
    access_counter := c.access_counter + 1
    writes := c.writes + 1 }
  let set_index := c.getSetIndex address
  let tag := c.getTag address
  let s := c.cache.getD set_index []
  match c.findHitWay set_index tag with
  | some way =>
    let c := { c with
      write_hits := c.write_hits + 1
      hits := c.hits + 1 }
    let line := s.getD way CacheLine.initLine
    let line :=
      if c.replacement_policy == .LRU then
        { line with last_access_time := c.access_counter }
      else line
    let line :=
      if c.write_policy == .WRITE_BACK then { line with dirty := true }
      else line
    (true, { c with cache := c.cache.set set_index (s.set way line) })
  | none =>
    let c := { c with
      write_misses := c.write_misses + 1
      misses := c.misses + 1 }
    let victim_way := c.findVictimInSet set_index
    let vline := s.getD victim_way CacheLine.initLine
    let c :=
      if vline.valid && vline.dirty && (c.write_policy == .WRITE_BACK) then
        { c with writebacks := c.writebacks + 1 }
      else c
    let newline : CacheLine :=
      { valid := true, tag := tag,
        dirty := c.write_policy == .WRITE_BACK,
        insertion_order := c.next_insertion_order,
        last_access_time := c.access_counter }
    (false, { c with
      cache := c.cache.set set_index (s.set victim_way newline)
      next_insertion_order := c.next_insertion_order + 1 })

/-- Cache::insert - hierarchy refill hook.  A WRITE_THROUGH level ignores
the is_dirty argument. -/
def Cache.insert (c : Cache) (address : Nat) (is_dirty : Bool := false) : Cache :=
  let set_index := c.getSetIndex address
  let tag := c.getTag address
  let actual_dirty := (c.write_policy == .WRITE_BACK) && is_dirty
  let s := c.cache.getD set_index []
  match c.findHitWay set_index tag with
  | some way =>
    let line := s.getD way CacheLine.initLine
    let r :=
      if c.replacement_policy == .LRU then
        ({ c with access_counter := c.access_counter + 1 },
         { line with last_access_time := c.access_counter + 1 })
      else (c, line)
    let c := r.1
    let line := r.2
    let line := if actual_dirty then { line with dirty := true } else line
    { c with cache := c.cache.set set_index (s.set way line) }
  | none =>
    let victim_way := c.findVictimInSet set_index
    let vline := s.getD victim_way CacheLine.initLine
    let c :=
      if vline.valid && vline.dirty && (c.write_policy == .WRITE_BACK) then
        { c with writebacks := c.writebacks + 1 }
      else c
    let newline : CacheLine :=
      { valid := true, tag := tag, dirty := actual_dirty,
        insertion_order := c.next_insertion_order,
        last_access_time := c.access_counter + 1 }
    { c with
      cache := c.cache.set set_index (s.set victim_way newline)
      next_insertion_order := c.next_insertion_order + 1
      access_counter := c.access_counter + 1 }

/-- Cache::evict - returns (found?, was_dirty, new state). -/
def Cache.evictLine (c : Cache) (address : Nat) : Bool × Bool × Cache :=
  let set_index := c.getSetIndex address
  let tag := c.getTag address
  let s := c.cache.getD set_index []
  match c.findHitWay set_index tag with
  | some way =>
    let line := s.getD way CacheLine.initLine
    let was_dirty := line.dirty
    let s2 := s.set way { line with valid := false, dirty := false }
    let c := { c with cache := c.cache.set set_index s2 }
    let c :=
      if was_dirty && (c.write_policy == .WRITE_BACK) then
        { c with writebacks := c.writebacks + 1 }
      else c
    (true, was_dirty, c)
  | none => (false, false, c)

/-- Cache::clear - invalidate every line and zero all counters. -/
def Cache.clearAll (c : Cache) : Cache :=
  { c with
    cache := c.cache.map (fun s =>
      s.map (fun l => { l with valid := false, dirty := false }))
    hits := 0, misses := 0, writes := 0, write_hits := 0, write_misses := 0,
    writebacks := 0, next_insertion_order := 0, access_counter := 0 }

/-- The operations an external caller can perform on one cache level. -/
inductive CacheOp where
  | readOp (address : Nat)
  | writeOp (address : Nat)
  | insertOp (address : Nat) (is_dirty : Bool)
  | evictOp (address : Nat)
  | clearOp
deriving DecidableEq, Repr

def cacheStep (c : Cache) : CacheOp → Cache
  | .readOp a => (c.read a).2
  | .writeOp a => (c.write a).2
  | .insertOp a d => c.insert a d
  | .evictOp a => (c.evictLine a).2.2
  | .clearOp => c.clearAll

def cacheRun (c : Cache) : List CacheOp → Cache
  | [] => c
  | op :: rest => cacheRun (cacheStep c op) rest

/-- The metadata of a line that Cache::read must not change: validity,
tag, dirty bit and FIFO insertion order. -/
def lineMeta (l : CacheLine) : Bool × Nat × Bool × Nat :=
  (l.valid, l.tag, l.dirty, l.insertion_order)

/-! # Cache hierarchy (src/cache/cache_simulator.cpp, class CacheHierarchy)

The write path additionally returns a ghost trace of the refill calls it
issues: each Cache::insert call performed by the hierarchy is recorded as
(level, is_dirty argument), in call order.  The trace is pure
instrumentation; it mirrors the call sequence of the source and does not
influence the computed state. -/

structure CacheHierarchy where
  l1 : Cache
  l2 : Cache
  l3 : Cache
  has_l2 : Bool
  has_l3 : Bool
  total_accesses : Nat
  total_reads : Nat
  total_writes : Nat
  l1_hits : Nat
  l2_hits : Nat
  l3_hits : Nat
  memory_accesses : Nat
  memory_writes : Nat
  l1_penalty : Nat
  l2_penalty : Nat
  l3_penalty : Nat
  memory_penalty : Nat
  total_penalty_cycles : Nat
deriving DecidableEq, Repr

/-- Constructor CacheHierarchy::CacheHierarchy.  A level with 0 lines is
absent (nullptr in the source); the embedding stores a dummy level guarded
by the has_l2 / has_l3 flags, which the operations consult before any use,
exactly as the source checks its pointers. -/
def hierInit (l1_lines l1_block : Nat) (l1_assoc : AssociativityType)
    (l1_repl : ReplacementPolicy) (l1_write : WritePolicy)
    (l2_lines l2_block : Nat) (l2_assoc : AssociativityType)
    (l2_repl : ReplacementPolicy) (l2_write : WritePolicy)
    (l3_lines l3_block : Nat) (l3_assoc : AssociativityType)
    (l3_repl : ReplacementPolicy) (l3_write : WritePolicy) : CacheHierarchy :=
  { l1 := Cache.create l1_lines l1_block l1_assoc l1_repl l1_write,
    l2 := Cache.create l2_lines l2_block l2_assoc l2_repl l2_write,
    l3 := Cache.create l3_lines l3_block l3_assoc l3_repl l3_write,
    has_l2 := decide (l2_lines > 0), has_l3 := decide (l3_lines > 0),
    total_accesses := 0, total_reads := 0, total_writes := 0,
    l1_hits := 0, l2_hits := 0, l3_hits := 0,
    memory_accesses := 0, memory_writes := 0,
    l1_penalty := 1, l2_penalty := 10, l3_penalty := 50, memory_penalty := 100,
    total_penalty_cycles := 0 }

/-- Step 4 of CacheHierarchy::read - memory fetch and refill of every
present level (L3, then L2, then L1, all clean). -/
def hierReadMem (h : CacheHierarchy) (address : Nat) (penalty : Nat) :
    Bool × CacheHierarchy :=
  let h := { h with memory_accesses := h.memory_accesses + 1 }
  let penalty := penalty + h.memory_penalty
  let h := if h.has_l3 then { h with l3 := h.l3.insert address } else h
  let h := if h.has_l2 then { h with l2 := h.l2.insert address } else h
  let h := { h with l1 := h.l1.insert address }
  (true, { h with total_penalty_cycles := h.total_penalty_cycles + penalty })

/-- Step 3 of CacheHierarchy::read - probe L3 if present. -/
def hierReadL3 (h : CacheHierarchy) (address : Nat) (penalty : Nat) :
    Bool × CacheHierarchy :=
  if h.has_l3 then
    let r3 := h.l3.read address
    let h := { h with l3 := r3.2 }
    if r3.1 then
      let penalty := penalty + 50
      let h := { h with l3_hits := h.l3_hits + 1 }
      let h := if h.has_l2 then { h with l2 := h.l2.insert address } else h
      let h := { h with l1 := h.l1.insert address }
      (false, { h with total_penalty_cycles := h.total_penalty_cycles + penalty })
    else
      hierReadMem h address (penalty + h.l3_penalty)
  else
    hierReadMem h address penalty

/-- CacheHierarchy::read - returns (memory accessed?, new state). -/
def hierRead (h : CacheHierarchy) (address : Nat) : Bool × CacheHierarchy :=
  let h := { h with
    total_accesses := h.total_accesses + 1
    total_reads := h.total_reads + 1 }
  let r1 := h.l1.read address
  let h := { h with l1 := r1.2 }
  if r1.1 then
    let penalty := 1
    (false, { h with
      l1_hits := h.l1_hits + 1
      total_penalty_cycles := h.total_penalty_cycles + penalty })
  else
    let penalty := h.l1_penalty
    if h.has_l2 then
      let r2 := h.l2.read address
      let h := { h with l2 := r2.2 }
      if r2.1 then
        let penalty := penalty + 10
        let h := { h with
          l2_hits := h.l2_hits + 1
          l1 := h.l1.insert address }
        (false, { h with total_penalty_cycles := h.total_penalty_cycles + penalty })
      else
        hierReadL3 h address (penalty + h.l2_penalty)
    else
      hierReadL3 h address penalty

/-- Step 4 of CacheHierarchy::write - write-allocate memory fetch, the
write-through memory store when L1 is WRITE_THROUGH, and refill of every
present level with mark_dirty = (L1 policy is WRITE_BACK). -/
def hierWriteMem (h : CacheHierarchy) (address : Nat) (penalty : Nat) :
    Bool × CacheHierarchy × List (Nat × Bool) :=
  let h := { h with memory_accesses := h.memory_accesses + 1 }
  let penalty := penalty + h.memory_penalty
  let is_write_through := h.l1.write_policy == .WRITE_THROUGH
  let h := if is_write_through then
      { h with memory_writes := h.memory_writes + 1 } else h
  let mark_dirty := !is_write_through
  let r3 := if h.has_l3 then
      ({ h with l3 := h.l3.insert address mark_dirty }, [((3 : Nat), mark_dirty)])
    else (h, [])
  let h := r3.1
  let r2 := if h.has_l2 then
      ({ h with l2 := h.l2.insert address mark_dirty },
       r3.2 ++ [((2 : Nat), mark_dirty)])
    else (h, r3.2)
  let h := r2.1
  let h := { h with l1 := h.l1.insert address mark_dirty }
  let tr := r2.2 ++ [((1 : Nat), mark_dirty)]
  (true, { h with total_penalty_cycles := h.total_penalty_cycles + penalty }, tr)

/-- Step 3 of CacheHierarchy::write - probe L3 if present. -/
def hierWriteL3 (h : CacheHierarchy) (address : Nat) (penalty : Nat) :
    Bool × CacheHierarchy × List (Nat × Bool) :=
  if h.has_l3 then
    let r3 := h.l3.write address
    let h := { h with l3 := r3.2 }
    if r3.1 then
      let penalty := penalty + 50
      let h := { h with l3_hits := h.l3_hits + 1 }
      let is_write_through := h.l1.write_policy == .WRITE_THROUGH
      let h := if is_write_through then
          { h with memory_writes := h.memory_writes + 1 } else h
      let mark_dirty := !is_write_through
      let r2 := if h.has_l2 then
          ({ h with l2 := h.l2.insert address mark_dirty },
           [((2 : Nat), mark_dirty)])
        else (h, [])
      let h := r2.1
      let h := { h with l1 := h.l1.insert address mark_dirty }
      (false, { h with total_penalty_cycles := h.total_penalty_cycles + penalty },
       r2.2 ++ [((1 : Nat), mark_dirty)])
    else
      hierWriteMem h address (penalty + h.l3_penalty)
  else
    hierWriteMem h address penalty

/-- CacheHierarchy::write - returns (memory accessed?, new state, refill
trace). -/
def hierWrite (h : CacheHierarchy) (address : Nat) :
    Bool × CacheHierarchy × List (Nat × Bool) :=
  let h := { h with
    total_accesses := h.total_accesses + 1
    total_writes := h.total_writes + 1 }
  let r1 := h.l1.write address
  let h := { h with l1 := r1.2 }
  if r1.1 then
    let penalty := 1
    let h := { h with l1_hits := h.l1_hits + 1 }
    let h := if h.l1.write_policy == .WRITE_THROUGH then
        { h with memory_writes := h.memory_writes + 1 } else h
    (false, { h with total_penalty_cycles := h.total_penalty_cycles + penalty },
     ([] : List (Nat × Bool)))
  else
    let penalty := h.l1_penalty
    if h.has_l2 then
      let r2 := h.l2.write address
      let h := { h with l2 := r2.2 }
      if r2.1 then
        let penalty := penalty + 10
        let h := { h with l2_hits := h.l2_hits + 1 }
        let h := if h.l1.write_policy == .WRITE_THROUGH then
            { h with memory_writes := h.memory_writes + 1 } else h
        let d := h.l1.write_policy == .WRITE_BACK
        let h := { h with l1 := h.l1.insert address d }
        (false, { h with total_penalty_cycles := h.total_penalty_cycles + penalty },
         [((1 : Nat), d)])
      else
        hierWriteL3 h address (penalty + h.l2_penalty)
    else
      hierWriteL3 h address penalty

def hierReadRun (h : CacheHierarchy) : List Nat → CacheHierarchy
  | [] => h
  | a :: rest => hierReadRun (hierRead h a).2 rest

/-- The concrete hierarchy of claim C3: L1 = 1 line, L2 = 2 lines,
L3 = 4 lines, 64-byte blocks, direct-mapped, LRU, all write-back. -/
def c3Hierarchy : CacheHierarchy :=
  hierInit 1 64 .DIRECT_MAPPED .LRU .WRITE_BACK
           2 64 .DIRECT_MAPPED .LRU .WRITE_BACK
           4 64 .DIRECT_MAPPED .LRU .WRITE_BACK

/-- A cache level with no dirty line and no counted writeback. -/
def cacheWTClean (c : Cache) : Prop :=
  c.cache.all (fun s => s.all (fun l => !l.dirty)) = true ∧ c.writebacks = 0

/-- A two-line LRU write-back cache holding the block of address 0, used
to witness the read frame property on a hit. -/
def c8exCache : Cache :=
  (Cache.create 2 64 .DIRECT_MAPPED .LRU .WRITE_BACK).insert 0

/-- A single-level write-through hierarchy (L1 = 1 line) used to witness
the write path on a total miss. -/
def c1exHier : CacheHierarchy :=
  hierInit 1 64 .DIRECT_MAPPED .LRU .WRITE_THROUGH
           0 64 .DIRECT_MAPPED .LRU .WRITE_THROUGH
           0 64 .DIRECT_MAPPED .LRU .WRITE_THROUGH

/-! # Buddy allocator (src/buddy/buddy_allocator.cpp)

Free lists hold (address, size) pairs; the is_free / block_id / next
fields of the source BuddyBlock are never read from free-list nodes (the
next pointer is the list structure itself, and is_free / block_id are set
only on a node that is immediately deleted), so they carry no observable
state.  The recursive split and merge walks, which move strictly up the
order ladder, take an explicit fuel argument; every caller passes
max_order + 1, which the walks can never exhaust. -/

structure BuddyBlock where
  address : Nat
  size : Nat
deriving DecidableEq, Repr

structure AllocationRecord where
  address : Nat
  requested_size : Nat
  actual_size : Nat
  order : Nat
deriving DecidableEq, Repr

structure BuddyState where
  total_memory : Nat
  min_block_size : Nat
  max_order : Nat
  free_lists : List (List BuddyBlock)
  allocated_blocks : List (Nat × AllocationRecord)
  next_block_id : Nat
  total_allocations : Nat
  total_deallocations : Nat
  successful_allocations : Nat
  failed_allocations : Nat
  splits : Nat
  merges : Nat
  total_internal_fragmentation : Nat
deriving DecidableEq, Repr

/-- BuddyAllocator::isPowerOfTwo. -/
def buddyIsPowerOfTwo (n : Nat) : Bool :=
  decide (0 < n) && ((n &&& (n - 1)) == 0)

/-- The halving loop shared by the constructor (max_order) and getOrder:
the number of times temp can be halved before reaching 1.  The fuel is
the initial temp, which the loop cannot exhaust. -/
def halveCount : Nat → Nat → Nat
  | 0, _ => 0
  | fuel + 1, temp => if 1 < temp then halveCount fuel (temp / 2) + 1 else 0

/-- BuddyAllocator::getOrder. -/
def buddyGetOrder (min_block_size size : Nat) : Nat :=
  if size ≤ min_block_size then 0
  else halveCount (size / min_block_size) (size / min_block_size)

/-- BuddyAllocator::getBlockSize. -/
def buddyGetBlockSize (min_block_size order : Nat) : Nat :=
  min_block_size * (1 <<< order)

/-- The doubling loop of nextPowerOfTwo; fuel is the requested size. -/
def growPow : Nat → Nat → Nat → Nat
  | 0, power, _ => power
  | fuel + 1, power, size => if power < size then growPow fuel (power * 2) size
                             else power

/-- BuddyAllocator::nextPowerOfTwo. -/
def buddyNextPowerOfTwo (min_block_size size : Nat) : Nat :=
  if size == 0 then min_block_size
  else if size ≤ min_block_size then min_block_size
  else growPow size min_block_size size

/-- Constructor BuddyAllocator::BuddyAllocator: non-power-of-two arguments
are replaced by the documented defaults 1024 and 16; the single initial
block covers the whole arena at max_order. -/
def buddyInit (memory_size min_size : Nat) : BuddyState :=
  let total_memory := if buddyIsPowerOfTwo memory_size then memory_size
                      else 1024
  let min_block_size := if buddyIsPowerOfTwo min_size then min_size else 16
  let mo := halveCount (total_memory / min_block_size)
    (total_memory / min_block_size)
  { total_memory := total_memory, min_block_size := min_block_size,
    max_order := mo,
    free_lists := (List.replicate (mo + 1) ([] : List BuddyBlock)).set mo
      [⟨0, total_memory⟩],
    allocated_blocks := [], next_block_id := 1,
    total_allocations := 0, total_deallocations := 0,
    successful_allocations := 0, failed_allocations := 0,
    splits := 0, merges := 0, total_internal_fragmentation := 0 }

/-- The tail of BuddyAllocator::splitBlock once a block is available at
order + 1: pop it, push the low buddy then the high buddy onto the free
list at the given order (so the high buddy becomes the head), count one
split. -/
def buddySplitFinish (s : BuddyState) (order : Nat) : Bool × BuddyState :=
  match s.free_lists.getD (order + 1) [] with
  | [] => (false, s)
  | block :: rest =>
    let s := { s with free_lists := s.free_lists.set (order + 1) rest }
    let new_size := buddyGetBlockSize s.min_block_size order
    let buddy1 : BuddyBlock := ⟨block.address, new_size⟩
    let buddy2 : BuddyBlock := ⟨block.address + new_size, new_size⟩
    let l := buddy2 :: buddy1 :: s.free_lists.getD order []
    (true, { s with
      free_lists := s.free_lists.set order l
      splits := s.splits + 1 })

/-- BuddyAllocator::splitBlock. -/
def buddySplitBlock : Nat → BuddyState → Nat → Bool × BuddyState
  | 0, s, _ => (false, s)
  | fuel + 1, s, order =>
    if s.max_order ≤ order then (false, s)
    else if (s.free_lists.getD (order + 1) []).isEmpty then
      let r := buddySplitBlock fuel s (order + 1)
      if !r.1 then (false, r.2)
      else buddySplitFinish r.2 order
    else
      buddySplitFinish s order

/-- Remove the first block with the given address from a list, as
BuddyAllocator::removeFromFreeList walks the linked list. -/
def removeFirstByAddress : List BuddyBlock → Nat → Option BuddyBlock × List BuddyBlock
  | [], _ => (none, [])
  | b :: rest, address =>
    if b.address == address then (some b, rest)
    else
      let r := removeFirstByAddress rest address
      (r.1, b :: r.2)

def buddyRemoveFromFreeList (s : BuddyState) (order : Nat) (address : Nat) :
    Option BuddyBlock × BuddyState :=
  let r := removeFirstByAddress (s.free_lists.getD order []) address
  (r.1, { s with free_lists := s.free_lists.set order r.2 })

/-- BuddyAllocator::mergeBlocks: while the buddy at address XOR size is
free at the current order, remove both halves, push the merged block at
the lower address one order up, and recurse there. -/
def buddyMergeBlocks : Nat → BuddyState → Nat → Nat → Bool × BuddyState
  | 0, s, _, _ => (false, s)
  | fuel + 1, s, address, order =>
    if s.max_order ≤ order then (false, s)
    else
      let block_size := buddyGetBlockSize s.min_block_size order
      let buddy_addr := Nat.xor address block_size
      let r := buddyRemoveFromFreeList s order buddy_addr
      match r.1 with
      | none => (false, r.2)
      | some _ =>
        let r2 := buddyRemoveFromFreeList r.2 order address
        let s := r2.2
        let merged_addr := if address < buddy_addr then address else buddy_addr
        let merged_size := block_size * 2
        let l := s.free_lists.getD (order + 1) []
        let s := { s with
          free_lists := s.free_lists.set (order + 1)
            (⟨merged_addr, merged_size⟩ :: l)
          merges := s.merges + 1 }
        let r3 := buddyMergeBlocks fuel s merged_addr (order + 1)
        (true, r3.2)

/-- The tail of BuddyAllocator::allocate once the free list at the target
order is (supposed to be) non-empty: pop the head, assign the next block
id, record the allocation, account internal fragmentation. -/
def buddyAllocFinish (s : BuddyState) (requested_size actual_size order : Nat) :
    Int × BuddyState :=
  match s.free_lists.getD order [] with
  | [] => (-1, { s with failed_allocations := s.failed_allocations + 1 })
  | block :: rest =>
    let s := { s with free_lists := s.free_lists.set order rest }
    let block_id : Nat := s.next_block_id
    let record : AllocationRecord :=
      ⟨block.address, requested_size, actual_size, order⟩
    let s := { s with
      next_block_id := block_id + 1
      successful_allocations := s.successful_allocations + 1
      total_internal_fragmentation :=
        s.total_internal_fragmentation + (actual_size - requested_size)
      allocated_blocks := (block_id, record) :: s.allocated_blocks }
    ((block_id : Int), s)

/-- BuddyAllocator::allocate - returns (block_id or -1, new state). -/
def buddyAllocate (s : BuddyState) (requested_size : Nat) : Int × BuddyState :=
  let s := { s with total_allocations := s.total_allocations + 1 }
  if requested_size == 0 then
    (-1, { s with failed_allocations := s.failed_allocations + 1 })
  else if s.total_memory < requested_size then
    (-1, { s with failed_allocations := s.failed_allocations + 1 })
  else
    let actual_size := buddyNextPowerOfTwo s.min_block_size requested_size
    let order := buddyGetOrder s.min_block_size actual_size
    if (s.free_lists.getD order []).isEmpty then
      let r := buddySplitBlock (s.max_order + 1) s order
      if !r.1 then
        (-1, { r.2 with failed_allocations := r.2.failed_allocations + 1 })
      else
        buddyAllocFinish r.2 requested_size actual_size order
    else
      buddyAllocFinish s requested_size actual_size order

/-- BuddyAllocator::deallocate - returns (found?, new state).  An unknown
block id returns false with no mutation. -/
def buddyDeallocate (s : BuddyState) (block_id : Nat) : Bool × BuddyState :=
  match s.allocated_blocks.find? (fun pr => pr.1 == block_id) with
  | none => (false, s)
  | some pr =>
    let record := pr.2
    let block : BuddyBlock := ⟨record.address, record.actual_size⟩
    let s := { s with
      free_lists := s.free_lists.set record.order
        (block :: s.free_lists.getD record.order [])
      total_deallocations := s.total_deallocations + 1
      total_internal_fragmentation := s.total_internal_fragmentation
        - (record.actual_size - record.requested_size)
      allocated_blocks :=
        s.allocated_blocks.eraseP (fun pr2 => pr2.1 == block_id) }
    let r := buddyMergeBlocks (s.max_order + 1) s record.address record.order
    (true, r.2)

inductive BuddyOp where
  | allocOp (sz : Nat)
  | freeOp (id : Nat)
deriving DecidableEq, Repr

def buddyStep (s : BuddyState) : BuddyOp → BuddyState
  | .allocOp sz => (buddyAllocate s sz).2
  | .freeOp id => (buddyDeallocate s id).2

def buddyRunOps (s : BuddyState) : List BuddyOp → BuddyState
  | [] => s
  | op :: rest => buddyRunOps (buddyStep s op) rest

/-! # Contiguous allocator (src/allocator/memory_allocator.cpp)

The doubly-linked block list is embedded as an ordered List; the prev
pointers are redundant with the list order.  The pointer surgery of
splitBlock / coalesceBlocks becomes structural walks.  coalesceBlocks
takes a fuel argument (the list length, which each pass strictly
decreases or traverses). -/

structure MemoryBlock where
  start_address : Nat
  size : Nat
  is_allocated : Bool
  block_id : Int
deriving DecidableEq, Repr

inductive AllocationStrategy where
  | FIRST_FIT
  | BEST_FIT
  | WORST_FIT
deriving DecidableEq, Repr

structure MemoryManager where
  total_memory : Nat
  blocks : List MemoryBlock
  strategy : AllocationStrategy
  next_block_id : Nat
  allocation_attempts : Nat
  allocation_successes : Nat
  allocation_failures : Nat
deriving DecidableEq, Repr

/-- Constructor MemoryManager::MemoryManager - one free block covering
the arena. -/
def mmInit (size : Nat) : MemoryManager :=
  { total_memory := size, blocks := [⟨0, size, false, -1⟩],
    strategy := .FIRST_FIT, next_block_id := 1,
    allocation_attempts := 0, allocation_successes := 0,
    allocation_failures := 0 }

/-- MemoryManager::findBlockFirstFit - index of the lowest-address free
block of sufficient size. -/
def findBlockFirstFit (m : MemoryManager) (sz : Nat) : Option Nat :=
  m.blocks.findIdx? (fun b => !b.is_allocated && decide (sz ≤ b.size))

/-- MemoryManager::findBlockBestFit - index of the free fit minimising
size - sz, earliest wins ties (strict comparison against a running
minimum initialised to total_memory + 1). -/
def findBlockBestFit (m : MemoryManager) (sz : Nat) : Option Nat :=
  (m.blocks.enum.foldl
    (fun (acc : Option Nat × Nat) p =>
      if !p.2.is_allocated && decide (sz ≤ p.2.size)
          && decide (p.2.size - sz < acc.2)
      then (some p.1, p.2.size - sz) else acc)
    (none, m.total_memory + 1)).1

/-- MemoryManager::findBlockWorstFit - index of the free fit maximising
size, earliest wins ties (strict comparison against a running maximum
initialised to 0). -/
def findBlockWorstFit (m : MemoryManager) (sz : Nat) : Option Nat :=
  (m.blocks.enum.foldl
    (fun (acc : Option Nat × Nat) p =>
      if !p.2.is_allocated && decide (sz ≤ p.2.size)
          && decide (acc.2 < p.2.size)
      then (some p.1, p.2.size) else acc)
    (none, 0)).1

/-- MemoryManager::splitBlock applied to the block at index i: if the
block is larger than the request, shrink it to the request and insert the
free remainder right after it. -/
def mmSplitAt : List MemoryBlock → Nat → Nat → List MemoryBlock
  | [], _, _ => []
  | b :: rest, 0, sz =>
    if sz < b.size then
      { b with size := sz }
        :: ⟨b.start_address + sz, b.size - sz, false, -1⟩ :: rest
    else b :: rest
  | b :: rest, i + 1, sz => b :: mmSplitAt rest i sz

/-- Mark the block at index i allocated with the given id (the assignment
done by MemoryManager::allocate after the split). -/
def mmMarkAt : List MemoryBlock → Nat → Int → List MemoryBlock
  | [], _, _ => []
  | b :: rest, 0, id => { b with is_allocated := true, block_id := id } :: rest
  | b :: rest, i + 1, id => b :: mmMarkAt rest i id

/-- MemoryManager::allocate. -/
def mmAllocate (m : MemoryManager) (sz : Nat) : Int × MemoryManager :=
  let m := { m with allocation_attempts := m.allocation_attempts + 1 }
  if sz == 0 then
    (-1, { m with allocation_failures := m.allocation_failures + 1 })
  else
    let found := match m.strategy with
      | .FIRST_FIT => findBlockFirstFit m sz
      | .BEST_FIT => findBlockBestFit m sz
      | .WORST_FIT => findBlockWorstFit m sz
    match found with
    | none => (-1, { m with allocation_failures := m.allocation_failures + 1 })
    | some i =>
      let blocks := mmMarkAt (mmSplitAt m.blocks i sz) i (m.next_block_id : Int)
      ((m.next_block_id : Int),
       { m with
          blocks := blocks
          allocation_successes := m.allocation_successes + 1
          next_block_id := m.next_block_id + 1 })

/-- MemoryManager::coalesceBlocks - a single left-to-right pass that
repeatedly fuses a free block with its free successor (staying on the
fused block, as the source's continue does). -/
def mmCoalesce : Nat → List MemoryBlock → List MemoryBlock
  | 0, l => l
  | _ + 1, [] => []
  | _ + 1, [b] => [b]
  | fuel + 1, b :: c :: rest =>
    if !b.is_allocated && !c.is_allocated then
      mmCoalesce fuel ({ b with size := b.size + c.size } :: rest)
    else
      b :: mmCoalesce fuel (c :: rest)

/-- Clear the allocation mark of the block at index i (the mutation done
by MemoryManager::deallocate on the found block). -/
def mmClearAt : List MemoryBlock → Nat → List MemoryBlock
  | [], _ => []
  | b :: rest, 0 => { b with is_allocated := false, block_id := -1 } :: rest
  | b :: rest, i + 1 => b :: mmClearAt rest i

/-- MemoryManager::deallocate - linear scan for an allocated block with
the id; found: clear it and coalesce; not found: false, no mutation. -/
def mmDeallocate (m : MemoryManager) (block_id : Int) : Bool × MemoryManager :=
  match m.blocks.findIdx? (fun b => b.is_allocated && b.block_id == block_id) with
  | none => (false, m)
  | some i =>
    let blocks := mmClearAt m.blocks i
    (true, { m with blocks := mmCoalesce blocks.length blocks })

inductive MMOp where
  | mallocOp (sz : Nat)
  | freeOp (id : Int)
  | setStrategyOp (st : AllocationStrategy)
deriving DecidableEq, Repr

def mmStep (m : MemoryManager) : MMOp → MemoryManager
  | .mallocOp sz => (mmAllocate m sz).2
  | .freeOp id => (mmDeallocate m id).2
  | .setStrategyOp st => { m with strategy := st }

def mmRunOps (m : MemoryManager) : List MMOp → MemoryManager
  | [] => m
  | op :: rest => mmRunOps (mmStep m op) rest

/-- No two adjacent blocks are both free. -/
def noAdjFreeB : List MemoryBlock → Bool
  | [] => true
  | [_] => true
  | b :: c :: rest => (b.is_allocated || c.is_allocated) && noAdjFreeB (c :: rest)

/-- The blocks tile memory contiguously starting at the given address:
each block starts where the previous one ended. -/
def tilesB : Nat → List MemoryBlock → Bool
  | _, [] => true
  | a, b :: rest => (b.start_address == a) && tilesB (a + b.size) rest

def sumSizes (l : List MemoryBlock) : Nat := (l.map MemoryBlock.size).sum

/-- The number of allocated blocks carrying a given id. -/
def allocCount (l : List MemoryBlock) (id : Int) : Nat :=
  l.countP (fun b => b.is_allocated && b.block_id == id)

/-- The number of records with a given key in the buddy allocation map. -/
def buddyKeyCount (l : List (Nat × AllocationRecord)) (id : Nat) : Nat :=
  l.countP (fun pr => pr.1 == id)

/-- The cover invariant of the contiguous allocator: the blocks tile
[0, total_memory) with no gaps or overlaps, their sizes sum to
total_memory, and no two adjacent blocks are both free. -/
def mmWellFormed (m : MemoryManager) : Prop :=
  tilesB 0 m.blocks = true ∧ sumSizes m.blocks = m.total_memory ∧
  noAdjFreeB m.blocks = true

/-- Id discipline of the contiguous allocator: ids at or beyond
next_block_id are unissued (no allocated block carries them), and no id
marks more than one allocated block. -/
def mmIdsOk (m : MemoryManager) : Prop :=
  ∀ id : Int, ((m.next_block_id : Int) ≤ id → allocCount m.blocks id = 0)
    ∧ allocCount m.blocks id ≤ 1

/-- A retired contiguous-allocator id: already issued (below
next_block_id) but carried by no allocated block.  deallocate leaves a
freed id in this state, and no later operation can revive it. -/
def mmRetired (m : MemoryManager) (id0 : Int) : Prop :=
  allocCount m.blocks id0 = 0 ∧ id0 < (m.next_block_id : Int)

/-- Id discipline of the buddy allocator: keys at or beyond next_block_id
are absent from allocated_blocks, and no key occurs twice. -/
def buddyIdsOk (s : BuddyState) : Prop :=
  ∀ id : Nat, (s.next_block_id ≤ id → buddyKeyCount s.allocated_blocks id = 0)
    ∧ buddyKeyCount s.allocated_blocks id ≤ 1

/-- A retired buddy id: already issued but absent from
allocated_blocks. -/
def buddyRetired (s : BuddyState) (id0 : Nat) : Prop :=
  buddyKeyCount s.allocated_blocks id0 = 0 ∧ id0 < s.next_block_id

/-! ## Frame lemmas: the fault-handling helpers do not touch the
hit/fault/access statistics or the configured sizes. -/

theorem vmLoadPage_vmStats (s : VMState) (p f : Nat) :
    vmStats (vmLoadPage s p f) = vmStats s := by
  simp [vmLoadPage, vmStats]

theorem vmEvictPage_vmStats (s : VMState) (p : Nat) :
    vmStats (vmEvictPage s p).2 = vmStats s := by
  unfold vmEvictPage
  dsimp only
  split
  · rfl
  · split <;> split <;> rfl

theorem vmHandlePageFault_vmStats (s : VMState) (p : Nat) :
    vmStats (vmHandlePageFault s p) = vmStats s := by
  unfold vmHandlePageFault
  dsimp only
  split
  · split
    · rfl
    · rw [vmLoadPage_vmStats, vmEvictPage_vmStats]
  · rw [vmLoadPage_vmStats]

theorem vmTranslate_total_accesses (s : VMState) (a : Nat) :
    (vmTranslateAddress s a).2.total_accesses = s.total_accesses + 1 := by
  unfold vmTranslateAddress
  dsimp only
  split
  · rfl
  · split
    · rfl
    · exact congrArg (fun t => t.2.2.1) (vmHandlePageFault_vmStats _ _)

theorem vmTranslate_virtual_memory_size (s : VMState) (a : Nat) :
    (vmTranslateAddress s a).2.virtual_memory_size = s.virtual_memory_size := by
  unfold vmTranslateAddress
  dsimp only
  split
  · rfl
  · split
    · rfl
    · exact congrArg (fun t => t.2.2.2) (vmHandlePageFault_vmStats _ _)

theorem vmHandlePageFault_page_hits (s : VMState) (p : Nat) :
    (vmHandlePageFault s p).page_hits = s.page_hits :=
  congrArg (fun t => t.1) (vmHandlePageFault_vmStats s p)

theorem vmHandlePageFault_page_faults (s : VMState) (p : Nat) :
    (vmHandlePageFault s p).page_faults = s.page_faults :=
  congrArg (fun t => t.2.1) (vmHandlePageFault_vmStats s p)

theorem vmTranslate_hits_faults (s : VMState) (a : Nat) :
    (vmTranslateAddress s a).2.page_hits + (vmTranslateAddress s a).2.page_faults
      = s.page_hits + s.page_faults + (if a < s.virtual_memory_size then 1 else 0) := by
  unfold vmTranslateAddress
  dsimp only
  split
  · rename_i h
    simp [Nat.not_lt.mpr h]
  · rename_i h
    have ha : a < s.virtual_memory_size := Nat.lt_of_not_le h
    split
    · simp [ha]
      omega
    · simp [ha, vmHandlePageFault_page_hits, vmHandlePageFault_page_faults]
      omega

theorem countP_lt_add_countP_ge (vm : Nat) (seq : List Nat) :
    seq.countP (fun a => decide (a < vm))
      + seq.countP (fun a => decide (vm ≤ a)) = seq.length := by
  induction seq with
  | nil => simp
  | cons a rest ihr =>
    rw [List.countP_cons, List.countP_cons]
    rcases Nat.lt_or_ge a vm with h | h
    · simp [h, Nat.not_le.mpr h]
      omega
    · simp [h, Nat.not_lt.mpr h]
      omega

theorem vmRun_total_accesses (seq : List Nat) : ∀ s : VMState,
    (vmRun s seq).total_accesses = s.total_accesses + seq.length := by
  induction seq with
  | nil => intro s; simp [vmRun]
  | cons a rest ih =>
    intro s
    show (vmRun (vmTranslateAddress s a).2 rest).total_accesses = _
    rw [ih, vmTranslate_total_accesses]
    simp
    omega

theorem vmRun_hits_faults (seq : List Nat) : ∀ s : VMState,
    (vmRun s seq).page_hits + (vmRun s seq).page_faults
      = s.page_hits + s.page_faults
        + seq.countP (fun a => decide (a < s.virtual_memory_size)) := by
  induction seq with
  | nil => intro s; simp [vmRun]
  | cons a rest ih =>
    intro s
    show (vmRun (vmTranslateAddress s a).2 rest).page_hits
      + (vmRun (vmTranslateAddress s a).2 rest).page_faults = _
    rw [ih, vmTranslate_hits_faults]
    simp only [vmTranslate_virtual_memory_size, List.countP_cons]
    by_cases hc : a < s.virtual_memory_size
    · simp [hc]
      omega
    · simp [hc]

/-- C5 counterexample: a single translateAddress call with the virtual
address equal to virtual_memory_size (out of range) bumps total_accesses
but neither page_hits nor page_faults, so the claimed equation fails. -/
theorem c5_out_of_range_breaks_equation :
    ¬ ((vmTranslateAddress (vmInit 16 8 4 .FIFO) 16).2.page_hits
        + (vmTranslateAddress (vmInit 16 8 4 .FIFO) 16).2.page_faults
        = (vmTranslateAddress (vmInit 16 8 4 .FIFO) 16).2.total_accesses) := by
  decide

/-- C5 (amended): after every sequence of translateAddress calls,
page_hits + page_faults plus the number of out-of-range calls (virtual
address at or beyond virtual_memory_size) equals total_accesses; in
particular the claimed equation page_hits + page_faults = total_accesses
holds whenever every call so far was in range. -/
theorem c5_hits_faults_accesses (vm pm pg : Nat) (pol : PageReplacementPolicy)
    (seq : List Nat) :
    (vmRun (vmInit vm pm pg pol) seq).page_hits
      + (vmRun (vmInit vm pm pg pol) seq).page_faults
      + seq.countP (fun a => decide (vm ≤ a))
      = (vmRun (vmInit vm pm pg pol) seq).total_accesses := by
  have h1 := vmRun_total_accesses seq (vmInit vm pm pg pol)
  have h2 := vmRun_hits_faults seq (vmInit vm pm pg pol)
  have hinit : (vmInit vm pm pg pol).page_hits = 0 ∧
      (vmInit vm pm pg pol).page_faults = 0 ∧
      (vmInit vm pm pg pol).total_accesses = 0 ∧
      (vmInit vm pm pg pol).virtual_memory_size = vm := by
    refine ⟨rfl, rfl, rfl, rfl⟩
  obtain ⟨e1, e2, e3, e4⟩ := hinit
  simp only [e1, e2, e4] at h2
  rw [e3] at h1
  have hsplit := countP_lt_add_countP_ge vm seq
  omega

/-! ## Dirty bits and disk writes (claims C9 and C4) -/

theorem all_dirty_false_getD (l : List PageTableEntry)
    (h : l.all (fun pte => !pte.dirty) = true) (n : Nat) :
    (l.getD n PageTableEntry.init).dirty = false := by
  rw [List.all_eq_true] at h
  cases hx : l.get? n with
  | none => simp [List.getD_eq_getElem?_getD, ← List.get?_eq_getElem?, hx,
      PageTableEntry.init]
  | some x =>
    have hm : x ∈ l := List.get?_mem hx
    have := h x hm
    simp only [Bool.not_eq_true'] at this
    simp [List.getD_eq_getElem?_getD, ← List.get?_eq_getElem?, hx, this]

theorem all_set_of_all {α : Type} (p : α → Bool) (l : List α) (n : Nat) (x : α)
    (h : l.all p = true) (hx : p x = true) : (l.set n x).all p = true := by
  rw [List.all_eq_true] at h ⊢
  intro y hy
  rcases List.mem_or_eq_of_mem_set hy with h1 | rfl
  · exact h y h1
  · exact hx

theorem vmLoadPage_clean {s : VMState} (h : vmClean s) (p f : Nat) :
    vmClean (vmLoadPage s p f) := by
  obtain ⟨h1, h2⟩ := h
  unfold vmLoadPage vmClean
  dsimp only
  exact ⟨all_set_of_all _ _ _ _ h1 rfl, h2⟩

theorem vmEvictPage_clean {s : VMState} (h : vmClean s) (p : Nat) :
    vmClean (vmEvictPage s p).2 := by
  obtain ⟨h1, h2⟩ := h
  have hd : (s.page_table.getD p PageTableEntry.init).dirty = false :=
    all_dirty_false_getD _ h1 p
  unfold vmEvictPage
  dsimp only
  split
  · exact ⟨h1, h2⟩
  · simp only [hd, Bool.and_false, if_false, Bool.false_eq_true, ite_false]
    refine ⟨?_, h2⟩
    apply all_set_of_all _ _ _ _ h1
    rfl

theorem vmHandlePageFault_clean {s : VMState} (h : vmClean s) (p : Nat) :
    vmClean (vmHandlePageFault s p) := by
  unfold vmHandlePageFault
  dsimp only
  split
  · split
    · exact h
    · exact vmLoadPage_clean (vmEvictPage_clean h _) _ _
  · exact vmLoadPage_clean h _ _

theorem vmTranslate_clean {s : VMState} (h : vmClean s) (a : Nat) :
    vmClean (vmTranslateAddress s a).2 := by
  obtain ⟨h1, h2⟩ := h
  unfold vmTranslateAddress
  dsimp only
  split
  · exact ⟨h1, h2⟩
  · split
    · refine ⟨?_, h2⟩
      have hd := all_dirty_false_getD _ h1 (a / s.page_size)
      apply all_set_of_all _ _ _ _ h1
      simp only [Bool.not_eq_true']
      exact hd
    · dsimp only
      refine vmHandlePageFault_clean ?_ _
      exact ⟨h1, h2⟩

theorem vmRun_clean (seq : List Nat) : ∀ s : VMState,
    vmClean s → vmClean (vmRun s seq) := by
  induction seq with
  | nil => intro s h; exact h
  | cons a rest ih => intro s h; exact ih _ (vmTranslate_clean h a)

theorem vmInit_clean (vm pm pg : Nat) (pol : PageReplacementPolicy) :
    vmClean (vmInit vm pm pg pol) := by
  constructor
  · rw [List.all_eq_true]
    intro x hx
    rw [List.eq_of_mem_replicate hx]
    rfl
  · rfl

/-- C9: no operation of the virtual memory simulator ever sets a page-table
entry dirty; after any sequence of translateAddress (or access) calls from
a freshly constructed simulator, every page-table entry has dirty = false
and disk_writes = 0 (the dirty-eviction branch of evictPage is
unreachable). -/
theorem c9_no_dirty_no_disk_writes (vm pm pg : Nat) (pol : PageReplacementPolicy)
    (seq : List Nat) :
    (vmRun (vmInit vm pm pg pol) seq).page_table.all (fun pte => !pte.dirty) = true ∧
    (vmRun (vmInit vm pm pg pol) seq).disk_writes = 0 :=
  vmRun_clean seq _ (vmInit_clean vm pm pg pol)

/-- C4 (divergence witness): on a state whose victim page-table entry is
dirty, evictPage increments disk_writes twice when verbose is on (once in
the verbose reporting block, once in the unconditional dirty branch) and
once when verbose is off, so verbose changes the disk_writes counter,
against the specified exactly-once behaviour. -/
theorem c4_verbose_double_disk_write :
    (vmEvictPage c4FailingVM 0).2.disk_writes = 2 ∧
    (vmEvictPage { c4FailingVM with verbose := false } 0).2.disk_writes = 1 ∧
    c4FailingVM.disk_writes = 0 := by
  refine ⟨by decide, by decide, by decide⟩

/-! ## Claim C3: three-level refill scenario -/

/-- C3 counterexample: on the claimed configuration and access sequence
read 0; read 64; read 0, the accumulated penalty is not
(100+11) + (100+11) + (1+10) = 233: each total miss also pays the L3 miss
penalty of 50 cycles, giving 161 + 161 + 11 = 333. -/
theorem c3_penalty_value_wrong :
    ¬ ((hierReadRun c3Hierarchy [0, 64, 0]).total_penalty_cycles
        = (100 + 11) + (100 + 11) + (1 + 10)) := by
  decide

/-- C3 (amended): with L1 = 1 line, L2 = 2 lines, L3 = 4 lines, all
write-back, the sequence read 0; read 64; read 0 ends with the third read
an L1 miss and L2 hit, counters l1_hits = 0, l2_hits = 1,
memory_accesses = 2, total_penalty_cycles = (1+10+50+100) + (1+10+50+100)
+ (1+10) = 333, and L1 afterwards holds the block of address 0. -/
theorem c3_three_level_refill :
    (hierReadRun c3Hierarchy [0, 64, 0]).l1_hits = 0 ∧
    (hierReadRun c3Hierarchy [0, 64, 0]).l2_hits = 1 ∧
    (hierReadRun c3Hierarchy [0, 64, 0]).memory_accesses = 2 ∧
    (hierReadRun c3Hierarchy [0, 64, 0]).total_penalty_cycles
      = (1 + 10 + 50 + 100) + (1 + 10 + 50 + 100) + (1 + 10) ∧
    ((hierReadRun c3Hierarchy [0, 64]).l1.read 0).1 = false ∧
    ((hierReadRun c3Hierarchy [0, 64]).l2.read 0).1 = true ∧
    (((hierReadRun c3Hierarchy [0, 64, 0]).l1.cache.getD 0 []).getD 0
      CacheLine.initLine).valid = true ∧
    (((hierReadRun c3Hierarchy [0, 64, 0]).l1.cache.getD 0 []).getD 0
      CacheLine.initLine).tag = 0 := by
  refine ⟨by decide, by decide, by decide, by decide, by decide, by decide,
    by decide, by decide⟩

/-! ## Claim C6: write-through levels never hold a dirty line -/

theorem all_getD {α : Type} (p : α → Bool) (l : List α) (d : α) (n : Nat)
    (h : l.all p = true) (hd : p d = true) : p (l.getD n d) = true := by
  rw [List.all_eq_true] at h
  cases hx : l.get? n with
  | none => simpa [List.getD_eq_getElem?_getD, ← List.get?_eq_getElem?, hx] using hd
  | some x =>
    have hm : x ∈ l := List.get?_mem hx
    simpa [List.getD_eq_getElem?_getD, ← List.get?_eq_getElem?, hx] using h x hm

theorem cacheRead_wtClean {c : Cache} (h : cacheWTClean c) (a : Nat) :
    cacheWTClean (c.read a).2 := by
  obtain ⟨h1, h2⟩ := h
  have hs : (c.cache.getD ((a / c.block_size) % c.num_sets) []).all
      (fun l => !l.dirty) = true :=
    all_getD (fun s => s.all (fun l => !l.dirty)) c.cache [] _ h1 rfl
  unfold Cache.read Cache.findHitWay Cache.getSetIndex Cache.getTag
  dsimp only
  split
  · rename_i way heq
    split
    · refine ⟨?_, h2⟩
      apply all_set_of_all _ _ _ _ h1
      apply all_set_of_all _ _ _ _ hs
      simpa using all_getD (fun l => !l.dirty)
        (c.cache.getD ((a / c.block_size) % c.num_sets) [])
        CacheLine.initLine way hs rfl
    · exact ⟨h1, h2⟩
  · exact ⟨h1, h2⟩

theorem cacheWrite_wtClean {c : Cache} (hwp : c.write_policy = .WRITE_THROUGH)
    (h : cacheWTClean c) (a : Nat) : cacheWTClean (c.write a).2 := by
  obtain ⟨h1, h2⟩ := h
  have hs : (c.cache.getD ((a / c.block_size) % c.num_sets) []).all
      (fun l => !l.dirty) = true := all_getD _ _ _ _ h1 rfl
  unfold Cache.write Cache.findHitWay Cache.getSetIndex Cache.getTag
  dsimp only
  rw [hwp]
  simp only [show ((WritePolicy.WRITE_THROUGH == WritePolicy.WRITE_BACK) = false)
    from rfl, Bool.and_false, Bool.false_eq_true, if_false]
  split
  · rename_i way heq
    refine ⟨?_, h2⟩
    apply all_set_of_all _ _ _ _ h1
    apply all_set_of_all _ _ _ _ hs
    split
    · simpa using all_getD (fun l => !l.dirty)
        (c.cache.getD ((a / c.block_size) % c.num_sets) [])
        CacheLine.initLine way hs rfl
    · simpa using all_getD (fun l => !l.dirty)
        (c.cache.getD ((a / c.block_size) % c.num_sets) [])
        CacheLine.initLine way hs rfl
  · refine ⟨?_, h2⟩
    apply all_set_of_all _ _ _ _ h1
    apply all_set_of_all _ _ _ _ hs
    rfl

theorem cacheInsert_wtClean {c : Cache} (hwp : c.write_policy = .WRITE_THROUGH)
    (h : cacheWTClean c) (a : Nat) (d : Bool) : cacheWTClean (c.insert a d) := by
  obtain ⟨h1, h2⟩ := h
  have hs : (c.cache.getD ((a / c.block_size) % c.num_sets) []).all
      (fun l => !l.dirty) = true := all_getD _ _ _ _ h1 rfl
  unfold Cache.insert Cache.findHitWay Cache.getSetIndex Cache.getTag
  dsimp only
  rw [hwp]
  simp only [show ((WritePolicy.WRITE_THROUGH == WritePolicy.WRITE_BACK) = false)
    from rfl, Bool.false_and, Bool.and_false, Bool.false_eq_true, if_false]
  split
  · rename_i way heq
    split <;>
    · refine ⟨?_, h2⟩
      apply all_set_of_all _ _ _ _ h1
      apply all_set_of_all _ _ _ _ hs
      simpa using all_getD (fun l => !l.dirty)
        (c.cache.getD ((a / c.block_size) % c.num_sets) [])
        CacheLine.initLine way hs rfl
  · refine ⟨?_, h2⟩
    apply all_set_of_all _ _ _ _ h1
    apply all_set_of_all _ _ _ _ hs
    rfl

theorem cacheEvict_wtClean {c : Cache} (hwp : c.write_policy = .WRITE_THROUGH)
    (h : cacheWTClean c) (a : Nat) : cacheWTClean (c.evictLine a).2.2 := by
  obtain ⟨h1, h2⟩ := h
  have hs : (c.cache.getD ((a / c.block_size) % c.num_sets) []).all
      (fun l => !l.dirty) = true := all_getD _ _ _ _ h1 rfl
  unfold Cache.evictLine Cache.findHitWay Cache.getSetIndex Cache.getTag
  dsimp only
  rw [hwp]
  simp only [show ((WritePolicy.WRITE_THROUGH == WritePolicy.WRITE_BACK) = false)
    from rfl, Bool.and_false, Bool.false_eq_true, if_false]
  split
  · refine ⟨?_, h2⟩
    apply all_set_of_all _ _ _ _ h1
    apply all_set_of_all _ _ _ _ hs
    rfl
  · exact ⟨h1, h2⟩

theorem cacheClear_wtClean (c : Cache) : cacheWTClean c.clearAll := by
  constructor
  · rw [List.all_eq_true]
    intro sl hsl
    unfold Cache.clearAll at hsl
    dsimp only at hsl
    rw [List.mem_map] at hsl
    obtain ⟨sl0, _, rfl⟩ := hsl
    rw [List.all_eq_true]
    intro ln hln
    rw [List.mem_map] at hln
    obtain ⟨ln0, _, rfl⟩ := hln
    rfl
  · rfl

theorem cacheStep_write_policy (c : Cache) (op : CacheOp) :
    (cacheStep c op).write_policy = c.write_policy := by
  cases op with
  | readOp a =>
    show ((c.read a).2.write_policy = _)
    unfold Cache.read
    dsimp only
    split <;> (try split) <;> rfl
  | writeOp a =>
    show ((c.write a).2.write_policy = _)
    unfold Cache.write
    dsimp only
    split <;> (try split) <;> rfl
  | insertOp a d =>
    show ((c.insert a d).write_policy = _)
    unfold Cache.insert
    dsimp only
    split <;> (try split) <;> rfl
  | evictOp a =>
    show ((c.evictLine a).2.2.write_policy = _)
    unfold Cache.evictLine
    dsimp only
    split <;> (try split) <;> rfl
  | clearOp => rfl

theorem cacheStep_wtClean {c : Cache} (hwp : c.write_policy = .WRITE_THROUGH)
    (h : cacheWTClean c) (op : CacheOp) : cacheWTClean (cacheStep c op) := by
  cases op with
  | readOp a => exact cacheRead_wtClean h a
  | writeOp a => exact cacheWrite_wtClean hwp h a
  | insertOp a d => exact cacheInsert_wtClean hwp h a d
  | evictOp a => exact cacheEvict_wtClean hwp h a
  | clearOp => exact cacheClear_wtClean c

theorem cacheRun_wtClean (ops : List CacheOp) : ∀ c : Cache,
    c.write_policy = .WRITE_THROUGH → cacheWTClean c →
    cacheWTClean (cacheRun c ops) := by
  induction ops with
  | nil => intro c _ h; exact h
  | cons op rest ih =>
    intro c hwp h
    exact ih _ ((cacheStep_write_policy c op).trans hwp)
      (cacheStep_wtClean hwp h op)

theorem cacheCreate_wtClean (total blk : Nat) (assoc : AssociativityType)
    (rp : ReplacementPolicy) (wp : WritePolicy) :
    cacheWTClean (Cache.create total blk assoc rp wp) := by
  constructor
  · rw [List.all_eq_true]
    intro sl hsl
    rw [List.eq_of_mem_replicate hsl, List.all_eq_true]
    intro ln hln
    rw [List.eq_of_mem_replicate hln]
    rfl
  · rfl

/-- C6: a cache level constructed with the WRITE_THROUGH policy never holds
a dirty line after any sequence of read, write, insert, evict and clear
operations, and its writebacks counter stays 0. -/
theorem c6_wt_never_dirty (total blk : Nat) (assoc : AssociativityType)
    (rp : ReplacementPolicy) (ops : List CacheOp) :
    (cacheRun (Cache.create total blk assoc rp .WRITE_THROUGH) ops).cache.all
        (fun s => s.all (fun l => !l.dirty)) = true ∧
    (cacheRun (Cache.create total blk assoc rp .WRITE_THROUGH) ops).writebacks
        = 0 :=
  cacheRun_wtClean ops _ rfl (cacheCreate_wtClean total blk assoc rp _)

/-! ## Claim C8: Cache::read never installs or evicts a line -/

theorem findIdx?_some_bounds {α : Type} (p : α → Bool) :
    ∀ (l : List α) (i j : Nat), List.findIdx? p l i = some j →
      i ≤ j ∧ j - i < l.length := by
  intro l
  induction l with
  | nil => intro i j h; rw [List.findIdx?_nil] at h; cases h
  | cons x xs ih =>
    intro i j h
    rw [List.findIdx?_cons] at h
    split at h
    · cases h
      exact ⟨Nat.le_refl _, by simp⟩
    · obtain ⟨h1, h2⟩ := ih (i + 1) j h
      refine ⟨by omega, ?_⟩
      simp only [List.length_cons]
      omega

theorem set_getD_of_lt {α : Type} :
    ∀ (l : List α) (n : Nat) (d : α), n < l.length →
      l.set n (l.getD n d) = l
  | [], n, d, h => by simp at h
  | x :: xs, 0, d, _ => by
    rw [List.getD_cons_zero, List.set_cons_zero]
  | x :: xs, n + 1, d, h => by
    rw [List.getD_cons_succ, List.set_cons_succ]
    rw [set_getD_of_lt xs n d (by simpa using h)]

theorem map_set_getD_self {α β : Type} (f : α → β) (l : List α) (n : Nat)
    (d : α) (x : α) (hmeta : f x = f (l.getD n d)) :
    (l.set n x).map f = l.map f := by
  rcases Nat.lt_or_ge n l.length with hn | hn
  · rw [List.map_set, hmeta, ← List.getD_map l d f,
      set_getD_of_lt (l.map f) n (f d) (by simpa using hn)]
  · rw [List.set_eq_of_length_le hn]

/-- C8: Cache::read never installs or evicts a line.  For every cache
state and address, the valid, tag, dirty and insertion_order fields of
every line are unchanged; next_insertion_order and the write counters are
unchanged; access_counter advances by one; a hit bumps hits, a miss bumps
misses; on a miss or under FIFO the line array is untouched, and on an LRU
hit the only change is the matched line's last_access_time. -/
theorem c8_read_never_installs (c : Cache) (a : Nat) :
    (c.read a).2.cache.map (fun s => s.map lineMeta)
        = c.cache.map (fun s => s.map lineMeta) ∧
    (c.read a).2.next_insertion_order = c.next_insertion_order ∧
    (c.read a).2.access_counter = c.access_counter + 1 ∧
    (c.read a).2.writes = c.writes ∧
    (c.read a).2.write_hits = c.write_hits ∧
    (c.read a).2.write_misses = c.write_misses ∧
    (c.read a).2.writebacks = c.writebacks ∧
    ((c.read a).1 = true → (c.read a).2.hits = c.hits + 1 ∧
      (c.read a).2.misses = c.misses) ∧
    ((c.read a).1 = false → (c.read a).2.misses = c.misses + 1 ∧
      (c.read a).2.hits = c.hits ∧ (c.read a).2.cache = c.cache) ∧
    (c.replacement_policy = .FIFO → (c.read a).2.cache = c.cache) ∧
    ((c.read a).1 = true → c.replacement_policy = .LRU →
      ∃ way, c.findHitWay (c.getSetIndex a) (c.getTag a) = some way ∧
        (c.read a).2.cache = c.cache.set (c.getSetIndex a)
          ((c.cache.getD (c.getSetIndex a) []).set way
            { (c.cache.getD (c.getSetIndex a) []).getD way CacheLine.initLine with
              last_access_time := c.access_counter + 1 })) := by
  unfold Cache.read Cache.findHitWay Cache.getSetIndex Cache.getTag
  dsimp only
  split
  · rename_i way heq
    have hway := findIdx?_some_bounds _ _ _ _ heq
    split
    · rename_i hlru
      refine ⟨?_, rfl, rfl, rfl, rfl, rfl, rfl,
        fun _ => ⟨rfl, rfl⟩, fun hff => Bool.noConfusion hff, ?_, ?_⟩
      · apply map_set_getD_self
        apply map_set_getD_self
        rfl
      · intro hfifo
        rw [hfifo] at hlru
        exact absurd hlru (by decide)
      · intro _ _
        exact ⟨way, heq, rfl⟩
    · rename_i hlru
      refine ⟨rfl, rfl, rfl, rfl, rfl, rfl, rfl,
        fun _ => ⟨rfl, rfl⟩, fun hff => Bool.noConfusion hff, fun _ => rfl, ?_⟩
      intro _ hpol
      rw [hpol] at hlru
      exact absurd hlru (by decide)
  · refine ⟨rfl, rfl, rfl, rfl, rfl, rfl, rfl,
      fun htt => Bool.noConfusion htt, fun _ => ⟨rfl, rfl, rfl⟩, fun _ => rfl,
      fun htt => Bool.noConfusion htt⟩

/-- Witness for C8 at a concrete input: a 2-line LRU cache holding block 0
is read at address 0; the read hits and the theorem's LRU-hit conclusion
evaluates on it. -/
theorem c8_read_never_installs_witness :
    (c8exCache.read 0).1 = true ∧ c8exCache.replacement_policy = .LRU ∧
    ∃ way, c8exCache.findHitWay (c8exCache.getSetIndex 0) (c8exCache.getTag 0)
        = some way ∧
      (c8exCache.read 0).2.cache = c8exCache.cache.set (c8exCache.getSetIndex 0)
        ((c8exCache.cache.getD (c8exCache.getSetIndex 0) []).set way
          { (c8exCache.cache.getD (c8exCache.getSetIndex 0) []).getD way
              CacheLine.initLine with
            last_access_time := c8exCache.access_counter + 1 }) :=
  ⟨by decide, by decide,
    (c8_read_never_installs c8exCache 0).2.2.2.2.2.2.2.2.2.2 (by decide) (by decide)⟩

/-! ## Claim C1: the write path's visibility to main memory -/

theorem not_beq_wt (wp : WritePolicy) :
    (!(wp == WritePolicy.WRITE_THROUGH)) = (wp == WritePolicy.WRITE_BACK) := by
  cases wp <;> rfl

theorem cacheWrite_write_policy (c : Cache) (a : Nat) :
    (c.write a).2.write_policy = c.write_policy := by
  unfold Cache.write
  dsimp only
  split <;> (try split) <;> rfl

theorem hierWriteMem_spec (h : CacheHierarchy) (a p : Nat) :
    (hierWriteMem h a p).2.1.memory_accesses = h.memory_accesses + 1 ∧
    (hierWriteMem h a p).2.1.memory_writes = h.memory_writes
      + (if h.l1.write_policy == WritePolicy.WRITE_THROUGH then 1 else 0) ∧
    (hierWriteMem h a p).2.1.total_penalty_cycles
      = h.total_penalty_cycles + (p + h.memory_penalty) ∧
    (hierWriteMem h a p).2.2
      = (if h.has_l3 then
          [(3, h.l1.write_policy == WritePolicy.WRITE_BACK)] else [])
        ++ (if h.has_l2 then
          [(2, h.l1.write_policy == WritePolicy.WRITE_BACK)] else [])
        ++ [(1, h.l1.write_policy == WritePolicy.WRITE_BACK)] := by
  unfold hierWriteMem
  dsimp only
  cases hc3 : h.has_l3 <;> cases hc2 : h.has_l2 <;>
    cases hwt : (h.l1.write_policy == WritePolicy.WRITE_THROUGH) <;>
    simp only [hc3, hc2, hwt, ← not_beq_wt, Bool.not_true, Bool.not_false,
      if_true, if_false, Bool.false_eq_true, eq_self_iff_true,
      List.nil_append] <;>
    and_intros <;> first | rfl | trivial | omega

theorem hierWriteL3_hit_spec (h : CacheHierarchy) (a p : Nat)
    (hc3 : h.has_l3 = true) (h3 : (h.l3.write a).1 = true) :
    (hierWriteL3 h a p).2.1.memory_accesses = h.memory_accesses ∧
    (hierWriteL3 h a p).2.1.memory_writes = h.memory_writes
      + (if h.l1.write_policy == WritePolicy.WRITE_THROUGH then 1 else 0) ∧
    (hierWriteL3 h a p).2.2
      = (if h.has_l2 then
          [(2, h.l1.write_policy == WritePolicy.WRITE_BACK)] else [])
        ++ [(1, h.l1.write_policy == WritePolicy.WRITE_BACK)] := by
  unfold hierWriteL3
  dsimp only
  rw [if_pos hc3, if_pos h3]
  cases hc2 : h.has_l2 <;>
    cases hwt : (h.l1.write_policy == WritePolicy.WRITE_THROUGH) <;>
    simp only [hc2, hwt, ← not_beq_wt, Bool.not_true, Bool.not_false,
      if_true, if_false, Bool.false_eq_true, eq_self_iff_true,
      List.nil_append] <;>
    and_intros <;> first | rfl | trivial | omega

theorem hierWriteL3_miss_spec (h : CacheHierarchy) (a p : Nat)
    (h3 : h.has_l3 = true → (h.l3.write a).1 = false) :
    (hierWriteL3 h a p).2.1.memory_accesses = h.memory_accesses + 1 ∧
    (hierWriteL3 h a p).2.1.memory_writes = h.memory_writes
      + (if h.l1.write_policy == WritePolicy.WRITE_THROUGH then 1 else 0) ∧
    (hierWriteL3 h a p).2.1.total_penalty_cycles
      = h.total_penalty_cycles
        + (p + (if h.has_l3 then h.l3_penalty else 0) + h.memory_penalty) ∧
    (hierWriteL3 h a p).2.2
      = (if h.has_l3 then
          [(3, h.l1.write_policy == WritePolicy.WRITE_BACK)] else [])
        ++ (if h.has_l2 then
          [(2, h.l1.write_policy == WritePolicy.WRITE_BACK)] else [])
        ++ [(1, h.l1.write_policy == WritePolicy.WRITE_BACK)] := by
  unfold hierWriteL3
  dsimp only
  cases hc3 : h.has_l3 with
  | false =>
    simp only [Bool.false_eq_true, if_false]
    have hm := hierWriteMem_spec h a p
    refine ⟨hm.1, hm.2.1, ?_, ?_⟩
    · rw [hm.2.2.1]
      omega
    · rw [hm.2.2.2, hc3]
      rfl
  | true =>
    rw [if_pos rfl, if_neg (by simp [h3 hc3])]
    have hm := hierWriteMem_spec
      { h with l3 := (h.l3.write a).2, has_l3 := true } a (p + h.l3_penalty)
    refine ⟨hm.1, hm.2.1, ?_, ?_⟩
    · rw [hm.2.2.1]
      rfl
    · rw [hm.2.2.2]

/-- C1: on the hierarchy's write path, a write satisfied by a hit at any
level increments memory_writes at that moment iff L1's write policy is
WRITE_THROUGH (and performs no memory fetch); on a total miss exactly one
memory fetch is counted (memory_accesses + 1, penalty including
memory_penalty), memory_writes is additionally incremented iff L1 is
WRITE_THROUGH, and every present level is refilled with the is_dirty
argument equal to (L1 policy is WRITE_BACK), as recorded by the refill
trace. -/
theorem c1_write_memory_visibility (h : CacheHierarchy) (a : Nat) :
    ((h.l1.write a).1 = true →
      (hierWrite h a).2.1.memory_writes = h.memory_writes
        + (if h.l1.write_policy == WritePolicy.WRITE_THROUGH then 1 else 0) ∧
      (hierWrite h a).2.1.memory_accesses = h.memory_accesses ∧
      (hierWrite h a).2.2 = []) ∧
    ((h.l1.write a).1 = false → h.has_l2 = true → (h.l2.write a).1 = true →
      (hierWrite h a).2.1.memory_writes = h.memory_writes
        + (if h.l1.write_policy == WritePolicy.WRITE_THROUGH then 1 else 0) ∧
      (hierWrite h a).2.1.memory_accesses = h.memory_accesses ∧
      (hierWrite h a).2.2
        = [(1, h.l1.write_policy == WritePolicy.WRITE_BACK)]) ∧
    ((h.l1.write a).1 = false → (h.has_l2 = true → (h.l2.write a).1 = false) →
      h.has_l3 = true → (h.l3.write a).1 = true →
      (hierWrite h a).2.1.memory_writes = h.memory_writes
        + (if h.l1.write_policy == WritePolicy.WRITE_THROUGH then 1 else 0) ∧
      (hierWrite h a).2.1.memory_accesses = h.memory_accesses ∧
      (hierWrite h a).2.2
        = (if h.has_l2 then
            [(2, h.l1.write_policy == WritePolicy.WRITE_BACK)] else [])
          ++ [(1, h.l1.write_policy == WritePolicy.WRITE_BACK)]) ∧
    ((h.l1.write a).1 = false → (h.has_l2 = true → (h.l2.write a).1 = false) →
      (h.has_l3 = true → (h.l3.write a).1 = false) →
      (hierWrite h a).2.1.memory_accesses = h.memory_accesses + 1 ∧
      (hierWrite h a).2.1.memory_writes = h.memory_writes
        + (if h.l1.write_policy == WritePolicy.WRITE_THROUGH then 1 else 0) ∧
      (hierWrite h a).2.1.total_penalty_cycles = h.total_penalty_cycles
        + h.l1_penalty + (if h.has_l2 then h.l2_penalty else 0)
        + (if h.has_l3 then h.l3_penalty else 0) + h.memory_penalty ∧
      (hierWrite h a).2.2
        = (if h.has_l3 then
            [(3, h.l1.write_policy == WritePolicy.WRITE_BACK)] else [])
          ++ (if h.has_l2 then
            [(2, h.l1.write_policy == WritePolicy.WRITE_BACK)] else [])
          ++ [(1, h.l1.write_policy == WritePolicy.WRITE_BACK)]) := by
  have hwp1 : (h.l1.write a).2.write_policy = h.l1.write_policy :=
    cacheWrite_write_policy h.l1 a
  refine ⟨?_, ?_, ?_, ?_⟩
  · intro h1
    unfold hierWrite
    dsimp only
    rw [if_pos h1]
    cases hwt : (h.l1.write_policy == WritePolicy.WRITE_THROUGH) <;>
      simp only [hwp1, hwt, Bool.false_eq_true, if_false, if_true,
        eq_self_iff_true] <;>
      and_intros <;> first | rfl | trivial | omega
  · intro h1 hl2 h2t
    unfold hierWrite
    dsimp only
    rw [if_neg (by simp [h1]), if_pos hl2, if_pos h2t]
    cases hwt : (h.l1.write_policy == WritePolicy.WRITE_THROUGH) <;>
      simp only [hwp1, hwt, ← not_beq_wt, Bool.not_true, Bool.not_false,
        Bool.false_eq_true, if_false, if_true, eq_self_iff_true] <;>
      and_intros <;> first | rfl | trivial | omega
  · intro h1 h2imp hl3 h3t
    unfold hierWrite
    dsimp only
    rw [if_neg (by simp [h1])]
    cases hc2 : h.has_l2 with
    | true =>
      rw [if_pos rfl, if_neg (by simp [h2imp hc2])]
      have hs := hierWriteL3_hit_spec
        { h with
            total_accesses := h.total_accesses + 1
            total_writes := h.total_writes + 1
            l1 := (h.l1.write a).2
            l2 := (h.l2.write a).2
            has_l2 := true } a (h.l1_penalty + h.l2_penalty)
        hl3 h3t
      refine ⟨?_, ?_, ?_⟩
      · rw [hs.2.1]
        dsimp only
        rw [hwp1]
      · exact hs.1
      · rw [hs.2.2]
        dsimp only
        rw [hwp1]
    | false =>
      rw [if_neg (by simp)]
      have hs := hierWriteL3_hit_spec
        { h with
            total_accesses := h.total_accesses + 1
            total_writes := h.total_writes + 1
            l1 := (h.l1.write a).2
            has_l2 := false } a h.l1_penalty hl3 h3t
      refine ⟨?_, ?_, ?_⟩
      · rw [hs.2.1]
        dsimp only
        rw [hwp1]
      · exact hs.1
      · rw [hs.2.2]
        dsimp only
        try rw [hwp1]
        try simp only [eq_self_iff_true, if_true, Bool.false_eq_true, if_false]
        try first | rfl | omega
  · intro h1 h2imp h3imp
    unfold hierWrite
    dsimp only
    rw [if_neg (by simp [h1])]
    cases hc2 : h.has_l2 with
    | true =>
      rw [if_pos rfl, if_neg (by simp [h2imp hc2])]
      have hs := hierWriteL3_miss_spec
        { h with
            total_accesses := h.total_accesses + 1
            total_writes := h.total_writes + 1
            l1 := (h.l1.write a).2
            l2 := (h.l2.write a).2
            has_l2 := true } a (h.l1_penalty + h.l2_penalty) h3imp
      refine ⟨hs.1, ?_, ?_, ?_⟩
      · rw [hs.2.1]
        dsimp only
        rw [hwp1]
      · rw [hs.2.2.1]
        dsimp only
        try simp only [eq_self_iff_true, if_true, Bool.false_eq_true, if_false]
        try first | rfl | omega
      · rw [hs.2.2.2]
        dsimp only
        try rw [hwp1]
        try simp only [eq_self_iff_true, if_true, Bool.false_eq_true, if_false]
        try first | rfl | omega
    | false =>
      rw [if_neg (by simp)]
      have hs := hierWriteL3_miss_spec
        { h with
            total_accesses := h.total_accesses + 1
            total_writes := h.total_writes + 1
            l1 := (h.l1.write a).2
            has_l2 := false } a h.l1_penalty h3imp
      refine ⟨hs.1, ?_, ?_, ?_⟩
      · rw [hs.2.1]
        dsimp only
        rw [hwp1]
      · rw [hs.2.2.1]
        dsimp only
        try simp only [eq_self_iff_true, if_true, Bool.false_eq_true, if_false]
        try first | rfl | omega
      · rw [hs.2.2.2]
        dsimp only
        try rw [hwp1]
        try simp only [eq_self_iff_true, if_true, Bool.false_eq_true, if_false]
        try first | rfl | omega

/-- Witness for C1 at a concrete input: a total write miss on a one-level
write-through hierarchy counts one memory fetch, one memory write, pays
the 100-cycle memory penalty, and refills L1 with is_dirty = false. -/
theorem c1_write_memory_visibility_witness :
    (c1exHier.l1.write 0).1 = false ∧
    (hierWrite c1exHier 0).2.1.memory_accesses = c1exHier.memory_accesses + 1 ∧
    (hierWrite c1exHier 0).2.1.memory_writes = c1exHier.memory_writes
      + (if c1exHier.l1.write_policy == WritePolicy.WRITE_THROUGH
         then 1 else 0) ∧
    (hierWrite c1exHier 0).2.1.total_penalty_cycles
      = c1exHier.total_penalty_cycles + c1exHier.l1_penalty
        + (if c1exHier.has_l2 then c1exHier.l2_penalty else 0)
        + (if c1exHier.has_l3 then c1exHier.l3_penalty else 0)
        + c1exHier.memory_penalty ∧
    (hierWrite c1exHier 0).2.2
      = (if c1exHier.has_l3 then
          [(3, c1exHier.l1.write_policy == WritePolicy.WRITE_BACK)] else [])
        ++ (if c1exHier.has_l2 then
          [(2, c1exHier.l1.write_policy == WritePolicy.WRITE_BACK)] else [])
        ++ [(1, c1exHier.l1.write_policy == WritePolicy.WRITE_BACK)] :=
  ⟨by decide,
    (c1_write_memory_visibility c1exHier 0).2.2.2 (by decide)
      (fun hh => absurd hh (by decide)) (fun hh => absurd hh (by decide))⟩

/-! ## Claim C2: buddy split tree scenario -/

/-- C2 counterexample: on the fresh 1024/16 arena, allocate(16) returns
block id 1 whose recorded address is 1008, not 0: splitBlock pushes the
low buddy first and the high buddy second, so the high buddy is the LIFO
head at every order, and allocation takes the head. -/
theorem c2_first_allocation_not_at_zero :
    ((buddyAllocate (buddyInit 1024 16) 16).2.allocated_blocks.find?
        (fun pr => pr.1 == 1)).map (fun pr => pr.2.address) = some 1008 ∧
    ¬ (((buddyAllocate (buddyInit 1024 16) 16).2.allocated_blocks.find?
        (fun pr => pr.1 == 1)).map (fun pr => pr.2.address) = some 0) := by
  refine ⟨by decide, by decide⟩

/-- C2 (amended): arena 1024, min block 16.  allocate(16) performs exactly
six split events and returns block id 1 at address 1008 (the high buddy of
each split is pushed last onto the LIFO free list and allocation pops the
head).  Deallocating that block performs exactly six merges and restores
the free lists to the initial single block of the maximal order 6 at
address 0. -/
theorem c2_buddy_split_merge_roundtrip :
    (buddyAllocate (buddyInit 1024 16) 16).1 = 1 ∧
    (buddyAllocate (buddyInit 1024 16) 16).2.splits = 6 ∧
    ((buddyAllocate (buddyInit 1024 16) 16).2.allocated_blocks.find?
        (fun pr => pr.1 == 1))
      = some (1, ⟨1008, 16, 16, 0⟩) ∧
    (buddyDeallocate (buddyAllocate (buddyInit 1024 16) 16).2 1).1 = true ∧
    (buddyDeallocate (buddyAllocate (buddyInit 1024 16) 16).2 1).2.merges = 6 ∧
    (buddyDeallocate (buddyAllocate (buddyInit 1024 16) 16).2 1).2.free_lists
      = (buddyInit 1024 16).free_lists ∧
    (buddyInit 1024 16).max_order = 6 ∧
    (buddyInit 1024 16).free_lists
      = [[], [], [], [], [], [], [⟨0, 1024⟩]] ∧
    (buddyDeallocate
        (buddyAllocate (buddyInit 1024 16) 16).2 1).2.allocated_blocks = [] := by
  refine ⟨by decide, by decide, by decide, by decide, by decide, by decide,
    by decide, by decide, by decide⟩

/-! ## Claim C7: the contiguous allocator's cover and coalescing
invariants -/

theorem findIdx?_some_pred {α : Type} (p : α → Bool) (d : α) :
    ∀ (l : List α) (i j : Nat), List.findIdx? p l i = some j →
      p (l.getD (j - i) d) = true := by
  intro l
  induction l with
  | nil => intro i j h; rw [List.findIdx?_nil] at h; cases h
  | cons x xs ih =>
    intro i j h
    rw [List.findIdx?_cons] at h
    split at h
    · cases h
      simpa [Nat.sub_self]
    · have h2 := ih (i + 1) j h
      have hb := (findIdx?_some_bounds p xs (i + 1) j h).1
      have : j - i = (j - (i + 1)) + 1 := by omega
      rw [this, List.getD_cons_succ]
      exact h2

/-- The fold results of best-fit / worst-fit searches point at an element
of the scanned list satisfying the free-fit condition. -/
theorem foldl_opt_mem {P : Nat × MemoryBlock → Prop}
    (f : Option Nat × Nat → Nat × MemoryBlock → Option Nat × Nat)
    (hf : ∀ acc p, (f acc p).1 = acc.1 ∨ ((f acc p).1 = some p.1 ∧ P p)) :
    ∀ (xs : List (Nat × MemoryBlock)) (acc : Option Nat × Nat) (i : Nat),
      (xs.foldl f acc).1 = some i →
      acc.1 = some i ∨ ∃ p ∈ xs, p.1 = i ∧ P p := by
  intro xs
  induction xs with
  | nil => intro acc i h; exact Or.inl h
  | cons x rest ih =>
    intro acc i h
    rcases ih (f acc x) i h with h1 | ⟨p, hp, hpi, hP⟩
    · rcases hf acc x with h2 | ⟨h2, hP⟩
      · exact Or.inl (h2 ▸ h1)
      · right
        exact ⟨x, List.mem_cons_self x rest, by rw [h1] at h2; cases h2; rfl, hP⟩
    · exact Or.inr ⟨p, List.mem_cons_of_mem x hp, hpi, hP⟩

/-- Whichever strategy found index i, the block there is free and fits. -/
theorem findStrategy_spec (m : MemoryManager) (sz : Nat) (i : Nat)
    (h : (match m.strategy with
          | .FIRST_FIT => findBlockFirstFit m sz
          | .BEST_FIT => findBlockBestFit m sz
          | .WORST_FIT => findBlockWorstFit m sz) = some i) :
    ∃ b, m.blocks.get? i = some b ∧ b.is_allocated = false ∧ sz ≤ b.size := by
  have hmem : ∀ (b : MemoryBlock),
      (i, b) ∈ m.blocks.enum → m.blocks.get? i = some b := by
    intro b hb
    exact List.mem_enum_iff_get?.mp hb
  cases hst : m.strategy <;> rw [hst] at h
  case FIRST_FIT =>
    unfold findBlockFirstFit at h
    have hp := findIdx?_some_pred _ ⟨0, 0, false, -1⟩ m.blocks 0 i h
    have hb := (findIdx?_some_bounds _ m.blocks 0 i h).2
    simp only [Nat.sub_zero] at hp hb
    refine ⟨m.blocks.getD i ⟨0, 0, false, -1⟩, ?_, ?_, ?_⟩
    · rw [List.getD_eq_getElem?_getD, ← List.get?_eq_getElem?]
      cases hx : m.blocks.get? i with
      | none =>
        rw [List.get?_eq_getElem?] at hx
        rw [List.getElem?_eq_none_iff] at hx
        omega
      | some x => simp [hx]
    · simp only [Bool.and_eq_true, Bool.not_eq_true'] at hp
      exact hp.1
    · simp only [Bool.and_eq_true, decide_eq_true_eq] at hp
      exact hp.2
  case BEST_FIT =>
    unfold findBlockBestFit at h
    have := foldl_opt_mem
      (P := fun p => p.2.is_allocated = false ∧ sz ≤ p.2.size) _
      (fun acc p => by
        dsimp only
        split
        · rename_i hcond
          simp only [Bool.and_eq_true, Bool.not_eq_true',
            decide_eq_true_eq] at hcond
          exact Or.inr ⟨rfl, hcond.1.1, hcond.1.2⟩
        · exact Or.inl rfl)
      m.blocks.enum (none, m.total_memory + 1) i h
    rcases this with h1 | ⟨p, hp, hpi, hfree, hfit⟩
    · cases h1
    · refine ⟨p.2, hmem p.2 ?_, hfree, hfit⟩
      rw [← hpi]
      exact hp
  case WORST_FIT =>
    unfold findBlockWorstFit at h
    have := foldl_opt_mem
      (P := fun p => p.2.is_allocated = false ∧ sz ≤ p.2.size) _
      (fun acc p => by
        dsimp only
        split
        · rename_i hcond
          simp only [Bool.and_eq_true, Bool.not_eq_true',
            decide_eq_true_eq] at hcond
          exact Or.inr ⟨rfl, hcond.1.1, hcond.1.2⟩
        · exact Or.inl rfl)
      m.blocks.enum (none, 0) i h
    rcases this with h1 | ⟨p, hp, hpi, hfree, hfit⟩
    · cases h1
    · refine ⟨p.2, hmem p.2 ?_, hfree, hfit⟩
      rw [← hpi]
      exact hp

theorem tilesB_mmSplitAt : ∀ (l : List MemoryBlock) (i sz a : Nat),
    tilesB a l = true → tilesB a (mmSplitAt l i sz) = true := by
  intro l
  induction l with
  | nil => intro i sz a h; cases i <;> exact h
  | cons b rest ih =>
    intro i sz a h
    cases i with
    | zero =>
      show tilesB a (if sz < b.size then _ else _) = true
      split
      · rename_i hlt
        simp only [tilesB, Bool.and_eq_true, beq_iff_eq] at h ⊢
        obtain ⟨h1, h2⟩ := h
        refine ⟨h1, by omega, ?_⟩
        have : a + sz + (b.size - sz) = a + b.size := by omega
        rw [this]
        exact h2
      · exact h
    | succ i =>
      simp only [mmSplitAt, tilesB, Bool.and_eq_true] at h ⊢
      exact ⟨h.1, ih i sz (a + b.size) h.2⟩

theorem sumSizes_mmSplitAt : ∀ (l : List MemoryBlock) (i sz : Nat),
    sumSizes (mmSplitAt l i sz) = sumSizes l := by
  intro l
  induction l with
  | nil => intro i sz; cases i <;> rfl
  | cons b rest ih =>
    intro i sz
    cases i with
    | zero =>
      show sumSizes (if sz < b.size then _ else _) = _
      split
      · rename_i hlt
        simp only [sumSizes, List.map_cons, List.sum_cons]
        omega
      · rfl
    | succ i =>
      simp only [mmSplitAt, sumSizes, List.map_cons, List.sum_cons]
      have := ih i sz
      simp only [sumSizes] at this
      omega

theorem tilesB_mmMarkAt : ∀ (l : List MemoryBlock) (i : Nat) (id : Int)
    (a : Nat), tilesB a (mmMarkAt l i id) = tilesB a l := by
  intro l
  induction l with
  | nil => intro i id a; cases i <;> rfl
  | cons b rest ih =>
    intro i id a
    cases i with
    | zero => simp [mmMarkAt, tilesB]
    | succ i => simp [mmMarkAt, tilesB, ih i id]

theorem sumSizes_mmMarkAt : ∀ (l : List MemoryBlock) (i : Nat) (id : Int),
    sumSizes (mmMarkAt l i id) = sumSizes l := by
  intro l
  induction l with
  | nil => intro i id; cases i <;> rfl
  | cons b rest ih =>
    intro i id
    cases i with
    | zero => simp [mmMarkAt, sumSizes]
    | succ i =>
      simp only [mmMarkAt, sumSizes, List.map_cons, List.sum_cons]
      have := ih i id
      simp only [sumSizes] at this
      omega

theorem tilesB_mmClearAt : ∀ (l : List MemoryBlock) (i : Nat) (a : Nat),
    tilesB a (mmClearAt l i) = tilesB a l := by
  intro l
  induction l with
  | nil => intro i a; cases i <;> rfl
  | cons b rest ih =>
    intro i a
    cases i with
    | zero => simp [mmClearAt, tilesB]
    | succ i => simp [mmClearAt, tilesB, ih i]

theorem sumSizes_mmClearAt : ∀ (l : List MemoryBlock) (i : Nat),
    sumSizes (mmClearAt l i) = sumSizes l := by
  intro l
  induction l with
  | nil => intro i; cases i <;> rfl
  | cons b rest ih =>
    intro i
    cases i with
    | zero => simp [mmClearAt, sumSizes]
    | succ i =>
      simp only [mmClearAt, sumSizes, List.map_cons, List.sum_cons]
      have := ih i
      simp only [sumSizes] at this
      omega

theorem tilesB_mmCoalesce : ∀ (fuel : Nat) (l : List MemoryBlock) (a : Nat),
    tilesB a l = true → tilesB a (mmCoalesce fuel l) = true := by
  intro fuel
  induction fuel with
  | zero => intro l a h; exact h
  | succ fuel ih =>
    intro l a h
    match l with
    | [] => exact h
    | [b] => exact h
    | b :: c :: rest =>
      show tilesB a (if (!b.is_allocated && !c.is_allocated) = true then _
        else _) = true
      split
      · apply ih
        simp only [tilesB, Bool.and_eq_true, beq_iff_eq] at h ⊢
        obtain ⟨h1, h2, h3⟩ := h
        refine ⟨h1, ?_⟩
        have : a + (b.size + c.size) = a + b.size + c.size := by omega
        rw [this]
        exact h3
      · simp only [tilesB, Bool.and_eq_true, beq_iff_eq] at h ⊢
        exact ⟨h.1, by
          have := ih (c :: rest) (a + b.size) (by
            simp only [tilesB, Bool.and_eq_true, beq_iff_eq]
            exact h.2)
          exact this⟩

theorem sumSizes_mmCoalesce : ∀ (fuel : Nat) (l : List MemoryBlock),
    sumSizes (mmCoalesce fuel l) = sumSizes l := by
  intro fuel
  induction fuel with
  | zero => intro l; rfl
  | succ fuel ih =>
    intro l
    match l with
    | [] => rfl
    | [b] => rfl
    | b :: c :: rest =>
      show sumSizes (if (!b.is_allocated && !c.is_allocated) = true then _
        else _) = _
      split
      · rw [ih]
        simp only [sumSizes, List.map_cons, List.sum_cons]
        omega
      · simp only [sumSizes, List.map_cons, List.sum_cons]
        have := ih (c :: rest)
        simp only [sumSizes, List.map_cons, List.sum_cons] at this
        omega

theorem noAdjFreeB_cons (b : MemoryBlock) (l : List MemoryBlock) :
    noAdjFreeB (b :: l)
      = ((l.head?.elim true (fun c => b.is_allocated || c.is_allocated))
          && noAdjFreeB l) := by
  cases l with
  | nil => rfl
  | cons c rest => simp [noAdjFreeB]

/-- Marking (after splitting) either leaves the head block unchanged or
makes it allocated. -/
theorem markSplit_head : ∀ (l : List MemoryBlock) (i sz : Nat) (id : Int)
    (c : MemoryBlock), l.head? = some c →
    ∃ c', (mmMarkAt (mmSplitAt l i sz) i id).head? = some c' ∧
      (c'.is_allocated = true ∨ c'.is_allocated = c.is_allocated) := by
  intro l i sz id c hl
  match l, hl with
  | b :: rest, hl =>
    cases hl
    cases i with
    | zero =>
      show ∃ c', (mmMarkAt (if sz < c.size then _ else _) 0 id).head? = _ ∧ _
      split
      · exact ⟨_, rfl, Or.inl rfl⟩
      · exact ⟨_, rfl, Or.inl rfl⟩
    | succ i => exact ⟨c, rfl, Or.inr rfl⟩

theorem noAdj_markSplit : ∀ (l : List MemoryBlock) (i sz : Nat) (id : Int),
    noAdjFreeB l = true →
    (∀ b, l.get? i = some b → b.is_allocated = false) →
    noAdjFreeB (mmMarkAt (mmSplitAt l i sz) i id) = true := by
  intro l
  induction l with
  | nil => intro i sz id h _; cases i <;> exact h
  | cons b rest ih =>
    intro i sz id h hfree
    cases i with
    | zero =>
      have hb : b.is_allocated = false := hfree b rfl
      show noAdjFreeB (mmMarkAt (if sz < b.size then _ else _) 0 id) = true
      split
      · show noAdjFreeB (⟨b.start_address, sz, true, id⟩
          :: ⟨b.start_address + sz, b.size - sz, false, -1⟩ :: rest) = true
        rw [noAdjFreeB, noAdjFreeB_cons]
        rw [noAdjFreeB_cons, hb] at h
        simpa using h
      · show noAdjFreeB (⟨b.start_address, b.size, true, id⟩ :: rest) = true
        rw [noAdjFreeB_cons]
        rw [noAdjFreeB_cons, Bool.and_eq_true] at h
        rw [Bool.and_eq_true]
        refine ⟨?_, h.2⟩
        cases rest with
        | nil => rfl
        | cons c rest' => simp
    | succ i =>
      show noAdjFreeB (b :: mmMarkAt (mmSplitAt rest i sz) i id) = true
      rw [noAdjFreeB_cons, Bool.and_eq_true]
      rw [noAdjFreeB_cons, Bool.and_eq_true] at h
      constructor
      · cases hr : rest.head? with
        | none =>
          have : rest = [] := List.head?_eq_none_iff.mp hr
          subst this
          rfl
        | some c =>
          obtain ⟨c', hc', hcase⟩ := markSplit_head rest i sz id c hr
          rw [hc']
          rcases hcase with hc1 | hc1
          · simp [hc1]
          · rw [hr] at h
            rcases Bool.or_eq_true_iff.mp (by simpa using h.1) with hx | hx
            · simp [hx]
            · simp [hc1, hx]
      · exact ih i sz id h.2 (fun b' hb' => hfree b' hb')

theorem mmCoalesce_head : ∀ (fuel : Nat) (l : List MemoryBlock),
    (mmCoalesce fuel l).head?.map MemoryBlock.is_allocated
      = l.head?.map MemoryBlock.is_allocated := by
  intro fuel
  induction fuel with
  | zero => intro l; rfl
  | succ fuel ih =>
    intro l
    match l with
    | [] => rfl
    | [b] => rfl
    | b :: c :: rest =>
      show ((if (!b.is_allocated && !c.is_allocated) = true then
        mmCoalesce fuel _ else _ :: mmCoalesce fuel _)).head?.map _ = _
      split
      · rename_i hcond
        rw [ih]
        rfl
      · rfl

theorem mmCoalesce_noAdj : ∀ (fuel : Nat) (l : List MemoryBlock),
    l.length ≤ fuel → noAdjFreeB (mmCoalesce fuel l) = true := by
  intro fuel
  induction fuel with
  | zero =>
    intro l h
    have : l = [] := List.length_eq_zero.mp (Nat.le_zero.mp h)
    subst this
    rfl
  | succ fuel ih =>
    intro l h
    match l with
    | [] => rfl
    | [b] => rfl
    | b :: c :: rest =>
      show noAdjFreeB (if (!b.is_allocated && !c.is_allocated) = true then
        mmCoalesce fuel _ else b :: mmCoalesce fuel (c :: rest)) = true
      split
      · apply ih
        simp only [List.length_cons] at h ⊢
        omega
      · rename_i hcond
        rw [noAdjFreeB_cons, Bool.and_eq_true]
        constructor
        · cases hx : (mmCoalesce fuel (c :: rest)).head? with
          | none => rfl
          | some c' =>
            have := mmCoalesce_head fuel (c :: rest)
            rw [hx] at this
            simp only [List.head?_cons, Option.map_some'] at this
            have hc' : c'.is_allocated = c.is_allocated :=
              Option.some.inj (by simpa using this)
            simp only [Option.elim_some]
            cases hb : b.is_allocated with
            | true => rfl
            | false =>
              cases hc : c.is_allocated with
              | true => simp [hc', hc]
              | false =>
                rw [hb, hc] at hcond
                simp at hcond
        · exact ih (c :: rest) (by simp only [List.length_cons] at h ⊢; omega)

theorem mmClearAt_length : ∀ (l : List MemoryBlock) (i : Nat),
    (mmClearAt l i).length = l.length := by
  intro l
  induction l with
  | nil => intro i; cases i <;> rfl
  | cons b rest ih =>
    intro i
    cases i with
    | zero => rfl
    | succ i => simp [mmClearAt, ih i]

theorem mmStep_total_memory (m : MemoryManager) (op : MMOp) :
    (mmStep m op).total_memory = m.total_memory := by
  cases op with
  | mallocOp sz =>
    show (mmAllocate m sz).2.total_memory = _
    unfold mmAllocate
    dsimp only
    split
    · rfl
    · split <;> rfl
  | freeOp id =>
    show (mmDeallocate m id).2.total_memory = _
    unfold mmDeallocate
    dsimp only
    split <;> rfl
  | setStrategyOp st => rfl

theorem mmStep_wellFormed {m : MemoryManager} (h : mmWellFormed m)
    (op : MMOp) : mmWellFormed (mmStep m op) := by
  obtain ⟨h1, h2, h3⟩ := h
  cases op with
  | mallocOp sz =>
    show mmWellFormed (mmAllocate m sz).2
    unfold mmAllocate
    dsimp only
    split
    · exact ⟨h1, h2, h3⟩
    · cases hfind : (match m.strategy with
        | .FIRST_FIT => findBlockFirstFit
            { m with allocation_attempts := m.allocation_attempts + 1 } sz
        | .BEST_FIT => findBlockBestFit
            { m with allocation_attempts := m.allocation_attempts + 1 } sz
        | .WORST_FIT => findBlockWorstFit
            { m with allocation_attempts := m.allocation_attempts + 1 } sz) with
      | none => exact ⟨h1, h2, h3⟩
      | some i =>
        obtain ⟨b0, hb0, hfree, hfit⟩ := findStrategy_spec
          { m with allocation_attempts := m.allocation_attempts + 1 } sz i
          hfind
        have hb0' : m.blocks.get? i = some b0 := hb0
        refine ⟨?_, ?_, ?_⟩
        · rw [tilesB_mmMarkAt]
          exact tilesB_mmSplitAt m.blocks i sz 0 h1
        · rw [sumSizes_mmMarkAt, sumSizes_mmSplitAt]
          exact h2
        · apply noAdj_markSplit m.blocks i sz _ h3
          intro b hb
          rw [hb0'] at hb
          cases hb
          exact hfree
  | freeOp id =>
    show mmWellFormed (mmDeallocate m id).2
    unfold mmDeallocate
    dsimp only
    split
    · exact ⟨h1, h2, h3⟩
    · refine ⟨?_, ?_, ?_⟩
      · apply tilesB_mmCoalesce
        rw [tilesB_mmClearAt]
        exact h1
      · rw [sumSizes_mmCoalesce, sumSizes_mmClearAt]
        exact h2
      · exact mmCoalesce_noAdj _ _ (Nat.le_refl _)
  | setStrategyOp st => exact ⟨h1, h2, h3⟩

theorem mmRunOps_wellFormed (ops : List MMOp) : ∀ m : MemoryManager,
    mmWellFormed m → mmWellFormed (mmRunOps m ops) := by
  induction ops with
  | nil => intro m h; exact h
  | cons op rest ih => intro m h; exact ih _ (mmStep_wellFormed h op)

theorem mmRunOps_total_memory (ops : List MMOp) : ∀ m : MemoryManager,
    (mmRunOps m ops).total_memory = m.total_memory := by
  induction ops with
  | nil => intro m; rfl
  | cons op rest ih =>
    intro m
    rw [show mmRunOps m (op :: rest) = mmRunOps (mmStep m op) rest from rfl,
      ih, mmStep_total_memory]

/-- C7: for every contiguous allocator and every sequence of allocate,
deallocate and set-strategy operations, the blocks always form a gapless
non-overlapping cover of the arena whose sizes sum to total_memory, and
no two adjacent blocks are both free - in particular immediately after
every deallocate. -/
theorem c7_cover_and_coalescing (size : Nat) (ops : List MMOp) :
    sumSizes (mmRunOps (mmInit size) ops).blocks
      = (mmRunOps (mmInit size) ops).total_memory ∧
    (mmRunOps (mmInit size) ops).total_memory = size ∧
    tilesB 0 (mmRunOps (mmInit size) ops).blocks = true ∧
    noAdjFreeB (mmRunOps (mmInit size) ops).blocks = true := by
  have hinit : mmWellFormed (mmInit size) := by
    refine ⟨?_, ?_, ?_⟩
    · simp [mmInit, tilesB]
    · simp [mmInit, sumSizes]
    · rfl
  have h := mmRunOps_wellFormed ops _ hinit
  exact ⟨h.2.1, mmRunOps_total_memory ops _, h.1, h.2.2⟩

/-! ## Double free (C10)

An id freed with success is retired: no allocated block carries it and it
is below next_block_id, so (ids never being reused) no later operation
can revive it and a second deallocate of the same id fails without
mutating the state.  The development tracks, for each id, the number of
blocks (contiguous allocator) or map entries (buddy allocator) carrying
it. -/

theorem countP_eraseP_le {α : Type} (p q : α → Bool) (l : List α) :
    (List.countP q (l.eraseP p)) ≤ List.countP q l :=
  List.Sublist.countP_le q (List.eraseP_sublist l)

theorem countP_eraseP_self {α : Type} (p : α → Bool) :
    ∀ l : List α, List.countP p l ≤ 1 → List.countP p (l.eraseP p) = 0 := by
  intro l
  induction l with
  | nil => intro _; rfl
  | cons b rest ih =>
    intro h
    by_cases hp : p b = true
    · rw [List.eraseP_cons_of_pos hp]
      rw [List.countP_cons, if_pos hp] at h
      omega
    · rw [List.eraseP_cons_of_neg hp]
      rw [List.countP_cons, if_neg hp] at h ⊢
      have h2 := ih (by omega)
      omega

theorem findIdx?_none_of_countP_zero {α : Type} (p : α → Bool) (l : List α)
    (h : List.countP p l = 0) : l.findIdx? p = none := by
  rw [List.findIdx?_eq_none_iff]
  intro x hx
  have h2 := List.countP_eq_zero.mp h x hx
  cases hpx : p x with
  | false => rfl
  | true => exact absurd hpx h2

theorem find?_none_of_countP_zero {α : Type} (p : α → Bool) (l : List α)
    (h : List.countP p l = 0) : l.find? p = none := by
  rw [List.find?_eq_none]
  intro x hx
  exact List.countP_eq_zero.mp h x hx

theorem allocCount_mmSplitAt (id : Int) :
    ∀ (l : List MemoryBlock) (i sz : Nat),
      allocCount (mmSplitAt l i sz) id = allocCount l id := by
  intro l
  induction l with
  | nil => intro i sz; rfl
  | cons b rest ih =>
    intro i sz
    cases i with
    | zero =>
      show allocCount (if sz < b.size then { b with size := sz }
        :: ⟨b.start_address + sz, b.size - sz, false, -1⟩ :: rest
        else b :: rest) id = allocCount (b :: rest) id
      split
      · simp [allocCount, List.countP_cons]
      · rfl
    | succ i =>
      show allocCount (b :: mmSplitAt rest i sz) id = allocCount (b :: rest) id
      have h2 := ih i sz
      simp only [allocCount, List.countP_cons] at h2 ⊢
      omega

theorem allocCount_mmMarkAt_le (idn id : Int) :
    ∀ (l : List MemoryBlock) (i : Nat),
      allocCount (mmMarkAt l i idn) id
        ≤ allocCount l id + (if (idn == id) = true then 1 else 0) := by
  intro l
  induction l with
  | nil => intro i; exact Nat.le_add_right _ _
  | cons b rest ih =>
    intro i
    cases i with
    | zero =>
      show allocCount ({ b with is_allocated := true, block_id := idn } :: rest) id
        ≤ allocCount (b :: rest) id + _
      simp only [allocCount, List.countP_cons, Bool.true_and]
      omega
    | succ i =>
      show allocCount (b :: mmMarkAt rest i idn) id ≤ allocCount (b :: rest) id + _
      have h2 := ih i
      simp only [allocCount, List.countP_cons] at h2 ⊢
      omega

theorem allocCount_mmClearAt_le (id : Int) :
    ∀ (l : List MemoryBlock) (i : Nat),
      allocCount (mmClearAt l i) id ≤ allocCount l id := by
  intro l
  induction l with
  | nil => intro i; exact Nat.le_refl _
  | cons b rest ih =>
    intro i
    cases i with
    | zero =>
      show allocCount ({ b with is_allocated := false, block_id := -1 } :: rest) id
        ≤ allocCount (b :: rest) id
      simp only [allocCount, List.countP_cons, Bool.false_and, Bool.false_eq_true,
        if_false]
      omega
    | succ i =>
      show allocCount (b :: mmClearAt rest i) id ≤ allocCount (b :: rest) id
      have h2 := ih i
      simp only [allocCount, List.countP_cons] at h2 ⊢
      omega

theorem allocCount_mmClearAt_found (id : Int) (d : MemoryBlock) :
    ∀ (l : List MemoryBlock) (i : Nat),
      i < l.length →
      ((l.getD i d).is_allocated && ((l.getD i d).block_id == id)) = true →
      allocCount (mmClearAt l i) id + 1 = allocCount l id := by
  intro l
  induction l with
  | nil => intro i hlt; simp at hlt
  | cons b rest ih =>
    intro i hlt hp
    cases i with
    | zero =>
      simp only [List.getD_cons_zero] at hp
      show allocCount ({ b with is_allocated := false, block_id := -1 } :: rest) id + 1
        = allocCount (b :: rest) id
      simp [allocCount, List.countP_cons, hp]
    | succ i =>
      simp only [List.getD_cons_succ] at hp
      simp only [List.length_cons] at hlt
      show allocCount (b :: mmClearAt rest i) id + 1 = allocCount (b :: rest) id
      have h2 := ih i (by omega) hp
      simp only [allocCount, List.countP_cons] at h2 ⊢
      omega

theorem allocCount_mmCoalesce (id : Int) :
    ∀ (fuel : Nat) (l : List MemoryBlock),
      allocCount (mmCoalesce fuel l) id = allocCount l id := by
  intro fuel
  induction fuel with
  | zero => intro l; rfl
  | succ fuel ih =>
    intro l
    match l with
    | [] => rfl
    | [b] => rfl
    | b :: c :: rest =>
      show allocCount (if (!b.is_allocated && !c.is_allocated) = true
        then mmCoalesce fuel ({ b with size := b.size + c.size } :: rest)
        else b :: mmCoalesce fuel (c :: rest)) id = allocCount (b :: c :: rest) id
      split
      · rename_i hbc
        rw [ih]
        have hb : b.is_allocated = false := by
          simp only [Bool.and_eq_true, Bool.not_eq_true'] at hbc; exact hbc.1
        have hc : c.is_allocated = false := by
          simp only [Bool.and_eq_true, Bool.not_eq_true'] at hbc; exact hbc.2
        simp [allocCount, List.countP_cons, hb, hc]
      · have h2 := ih (c :: rest)
        simp only [allocCount, List.countP_cons] at h2 ⊢
        omega

theorem allocCount_mmDeallocate_le (m : MemoryManager) (idf id : Int) :
    allocCount (mmDeallocate m idf).2.blocks id ≤ allocCount m.blocks id := by
  unfold mmDeallocate
  cases hfind : m.blocks.findIdx? (fun b => b.is_allocated && b.block_id == idf) with
  | none => exact Nat.le_refl _
  | some i =>
    dsimp only
    rw [allocCount_mmCoalesce]
    exact allocCount_mmClearAt_le id m.blocks i

theorem mmDeallocate_next (m : MemoryManager) (idf : Int) :
    (mmDeallocate m idf).2.next_block_id = m.next_block_id := by
  unfold mmDeallocate
  cases hfind : m.blocks.findIdx? (fun b => b.is_allocated && b.block_id == idf) with
  | none => rfl
  | some i => rfl

theorem mmInit_idsOk (size : Nat) : mmIdsOk (mmInit size) := by
  intro id
  refine ⟨fun _ => ?_, ?_⟩
  · simp [mmInit, allocCount, List.countP_cons]
  · simp [mmInit, allocCount, List.countP_cons]

theorem mmAllocate_idsOk (m : MemoryManager) (sz : Nat) (h : mmIdsOk m) :
    mmIdsOk (mmAllocate m sz).2 := by
  unfold mmAllocate
  dsimp only
  split
  · exact h
  · cases hfind : (match m.strategy with
      | .FIRST_FIT => findBlockFirstFit
          { m with allocation_attempts := m.allocation_attempts + 1 } sz
      | .BEST_FIT => findBlockBestFit
          { m with allocation_attempts := m.allocation_attempts + 1 } sz
      | .WORST_FIT => findBlockWorstFit
          { m with allocation_attempts := m.allocation_attempts + 1 } sz) with
    | none => exact h
    | some i =>
      intro id
      dsimp only
      refine ⟨fun hge => ?_, ?_⟩
      · have hle := allocCount_mmMarkAt_le (m.next_block_id : Int) id
          (mmSplitAt m.blocks i sz) i
        have hne : ¬(((m.next_block_id : Int) == id) = true) := by
          simp only [beq_iff_eq]; omega
        rw [if_neg hne, allocCount_mmSplitAt] at hle
        have h0 := (h id).1 (by omega)
        omega
      · have hle := allocCount_mmMarkAt_le (m.next_block_id : Int) id
          (mmSplitAt m.blocks i sz) i
        rw [allocCount_mmSplitAt] at hle
        by_cases hid : (((m.next_block_id : Int)) == id) = true
        · rw [if_pos hid] at hle
          have h0 := (h id).1 (le_of_eq (beq_iff_eq.mp hid))
          omega
        · rw [if_neg hid] at hle
          have h1 := (h id).2
          omega

theorem mmAllocate_retired (m : MemoryManager) (sz : Nat) (id0 : Int)
    (h : mmRetired m id0) : mmRetired (mmAllocate m sz).2 id0 := by
  obtain ⟨h1, h2⟩ := h
  unfold mmAllocate
  dsimp only
  split
  · exact ⟨h1, h2⟩
  · cases hfind : (match m.strategy with
      | .FIRST_FIT => findBlockFirstFit
          { m with allocation_attempts := m.allocation_attempts + 1 } sz
      | .BEST_FIT => findBlockBestFit
          { m with allocation_attempts := m.allocation_attempts + 1 } sz
      | .WORST_FIT => findBlockWorstFit
          { m with allocation_attempts := m.allocation_attempts + 1 } sz) with
    | none => exact ⟨h1, h2⟩
    | some i =>
      refine ⟨?_, ?_⟩
      · dsimp only
        have hle := allocCount_mmMarkAt_le (m.next_block_id : Int) id0
          (mmSplitAt m.blocks i sz) i
        have hne : ¬(((m.next_block_id : Int) == id0) = true) := by
          simp only [beq_iff_eq]; omega
        rw [if_neg hne, allocCount_mmSplitAt] at hle
        omega
      · dsimp only
        omega

theorem mmDeallocate_idsOk (m : MemoryManager) (idf : Int) (h : mmIdsOk m) :
    mmIdsOk (mmDeallocate m idf).2 := by
  intro id
  have hc := allocCount_mmDeallocate_le m idf id
  have hn := mmDeallocate_next m idf
  refine ⟨fun hge => ?_, ?_⟩
  · rw [hn] at hge
    have h0 := (h id).1 hge
    omega
  · have h1 := (h id).2
    omega

theorem mmDeallocate_retired_any (m : MemoryManager) (idf id0 : Int)
    (h : mmRetired m id0) : mmRetired (mmDeallocate m idf).2 id0 := by
  obtain ⟨h1, h2⟩ := h
  have hc := allocCount_mmDeallocate_le m idf id0
  have hn := mmDeallocate_next m idf
  refine ⟨by omega, ?_⟩
  rw [hn]
  exact h2

theorem mmStep_idsOk (m : MemoryManager) (op : MMOp) (h : mmIdsOk m) :
    mmIdsOk (mmStep m op) := by
  cases op with
  | mallocOp sz => exact mmAllocate_idsOk m sz h
  | freeOp id => exact mmDeallocate_idsOk m id h
  | setStrategyOp st => exact h

theorem mmRunOps_idsOk (ops : List MMOp) : ∀ m : MemoryManager,
    mmIdsOk m → mmIdsOk (mmRunOps m ops) := by
  induction ops with
  | nil => intro m h; exact h
  | cons op rest ih => intro m h; exact ih _ (mmStep_idsOk m op h)

theorem mmStep_retired (m : MemoryManager) (op : MMOp) (id0 : Int)
    (h : mmRetired m id0) : mmRetired (mmStep m op) id0 := by
  cases op with
  | mallocOp sz => exact mmAllocate_retired m sz id0 h
  | freeOp id => exact mmDeallocate_retired_any m id id0 h
  | setStrategyOp st => exact h

theorem mmRunOps_retired (id0 : Int) (ops : List MMOp) : ∀ m : MemoryManager,
    mmRetired m id0 → mmRetired (mmRunOps m ops) id0 := by
  induction ops with
  | nil => intro m h; exact h
  | cons op rest ih => intro m h; exact ih _ (mmStep_retired m op id0 h)

theorem mmDeallocate_true_retired (m : MemoryManager) (id0 : Int)
    (h : mmIdsOk m) (ht : (mmDeallocate m id0).1 = true) :
    mmRetired (mmDeallocate m id0).2 id0 := by
  unfold mmDeallocate at ht ⊢
  cases hfind : m.blocks.findIdx? (fun b => b.is_allocated && b.block_id == id0) with
  | none =>
    rw [hfind] at ht
    exact Bool.noConfusion ht
  | some i =>
    dsimp only
    have hb := findIdx?_some_bounds _ m.blocks 0 i hfind
    have hp := findIdx?_some_pred _ (⟨0, 0, false, -1⟩ : MemoryBlock) m.blocks 0 i hfind
    rw [Nat.sub_zero] at hp
    have hlt : i < m.blocks.length := by have := hb.2; omega
    have hfound := allocCount_mmClearAt_found id0 ⟨0, 0, false, -1⟩ m.blocks i hlt hp
    refine ⟨?_, ?_⟩
    · rw [allocCount_mmCoalesce]
      have hle := (h id0).2
      omega
    · by_contra hcon
      push_neg at hcon
      have h0 := (h id0).1 hcon
      omega

theorem mmDeallocate_of_retired (m : MemoryManager) (id0 : Int)
    (h : mmRetired m id0) : mmDeallocate m id0 = (false, m) := by
  obtain ⟨h1, _⟩ := h
  have hnone : m.blocks.findIdx? (fun b => b.is_allocated && b.block_id == id0)
      = none := by
    apply findIdx?_none_of_countP_zero
    simpa [allocCount] using h1
  unfold mmDeallocate
  rw [hnone]

theorem mm_double_free (size : Nat) (ops1 : List MMOp) (id0 : Int)
    (ops2 : List MMOp)
    (h : (mmDeallocate (mmRunOps (mmInit size) ops1) id0).1 = true) :
    mmDeallocate (mmRunOps (mmDeallocate (mmRunOps (mmInit size) ops1) id0).2 ops2) id0
      = (false, mmRunOps (mmDeallocate (mmRunOps (mmInit size) ops1) id0).2 ops2) := by
  have hok : mmIdsOk (mmRunOps (mmInit size) ops1) :=
    mmRunOps_idsOk ops1 _ (mmInit_idsOk size)
  have hret := mmDeallocate_true_retired _ id0 hok h
  have hret2 := mmRunOps_retired id0 ops2 _ hret
  exact mmDeallocate_of_retired _ id0 hret2

theorem buddySplitFinish_alloc (s : BuddyState) (o : Nat) :
    (buddySplitFinish s o).2.allocated_blocks = s.allocated_blocks ∧
    (buddySplitFinish s o).2.next_block_id = s.next_block_id := by
  unfold buddySplitFinish
  refine ⟨?_, ?_⟩
  · split <;> rfl
  · split <;> rfl

theorem buddySplitBlock_alloc : ∀ (fuel : Nat) (s : BuddyState) (o : Nat),
    (buddySplitBlock fuel s o).2.allocated_blocks = s.allocated_blocks ∧
    (buddySplitBlock fuel s o).2.next_block_id = s.next_block_id := by
  intro fuel
  induction fuel with
  | zero => intro s o; exact ⟨rfl, rfl⟩
  | succ fuel ih =>
    intro s o
    rw [buddySplitBlock]
    split
    · exact ⟨rfl, rfl⟩
    · dsimp only
      split
      · split
        · exact ⟨(ih _ _).1, (ih _ _).2⟩
        · refine ⟨?_, ?_⟩
          · rw [(buddySplitFinish_alloc _ _).1, (ih _ _).1]
          · rw [(buddySplitFinish_alloc _ _).2, (ih _ _).2]
      · exact ⟨(buddySplitFinish_alloc _ _).1, (buddySplitFinish_alloc _ _).2⟩

theorem buddyMergeBlocks_alloc : ∀ (fuel : Nat) (s : BuddyState) (a o : Nat),
    (buddyMergeBlocks fuel s a o).2.allocated_blocks = s.allocated_blocks ∧
    (buddyMergeBlocks fuel s a o).2.next_block_id = s.next_block_id := by
  intro fuel
  induction fuel with
  | zero => intro s a o; exact ⟨rfl, rfl⟩
  | succ fuel ih =>
    intro s a o
    rw [buddyMergeBlocks]
    split
    · exact ⟨rfl, rfl⟩
    · dsimp only
      split
      · exact ⟨rfl, rfl⟩
      · exact ⟨(ih _ _ _).1, (ih _ _ _).2⟩

theorem buddyIdsOk_update (s s' : BuddyState)
    (ha : s'.allocated_blocks = s.allocated_blocks)
    (hn : s'.next_block_id = s.next_block_id)
    (h : buddyIdsOk s) : buddyIdsOk s' := by
  intro id
  rw [buddyIdsOk] at h
  refine ⟨fun hge => ?_, ?_⟩
  · rw [ha]
    exact (h id).1 (by rw [hn] at hge; exact hge)
  · rw [ha]
    exact (h id).2

theorem buddyRetired_update (s s' : BuddyState) (id0 : Nat)
    (ha : s'.allocated_blocks = s.allocated_blocks)
    (hn : s.next_block_id ≤ s'.next_block_id)
    (h : buddyRetired s id0) : buddyRetired s' id0 := by
  obtain ⟨h1, h2⟩ := h
  exact ⟨by rw [ha]; exact h1, by omega⟩

theorem buddyInit_idsOk (mem mn : Nat) : buddyIdsOk (buddyInit mem mn) := by
  intro id
  refine ⟨fun _ => ?_, ?_⟩
  · simp [buddyInit, buddyKeyCount]
  · simp [buddyInit, buddyKeyCount]

theorem buddyAllocFinish_idsOk (s : BuddyState) (rs asz o : Nat)
    (h : buddyIdsOk s) : buddyIdsOk (buddyAllocFinish s rs asz o).2 := by
  unfold buddyAllocFinish
  cases hl : s.free_lists.getD o [] with
  | nil => exact h
  | cons blk rest =>
    intro id
    dsimp only
    refine ⟨fun hge => ?_, ?_⟩
    · simp only [buddyKeyCount, List.countP_cons]
      have hne : ¬((s.next_block_id == id) = true) := by
        simp only [beq_iff_eq]; omega
      rw [if_neg hne]
      have h0 := (h id).1 (by omega)
      simp only [buddyKeyCount] at h0
      omega
    · simp only [buddyKeyCount, List.countP_cons]
      by_cases hid : (s.next_block_id == id) = true
      · have h0 := (h id).1 (Nat.le_of_eq (beq_iff_eq.mp hid))
        simp only [buddyKeyCount] at h0
        rw [if_pos hid]
        omega
      · have h1 := (h id).2
        simp only [buddyKeyCount] at h1
        rw [if_neg hid]
        omega

theorem buddyAllocFinish_retired (s : BuddyState) (rs asz o : Nat) (id0 : Nat)
    (h : buddyRetired s id0) : buddyRetired (buddyAllocFinish s rs asz o).2 id0 := by
  obtain ⟨h1, h2⟩ := h
  unfold buddyAllocFinish
  cases hl : s.free_lists.getD o [] with
  | nil => exact ⟨h1, h2⟩
  | cons blk rest =>
    dsimp only
    refine ⟨?_, ?_⟩
    · simp only [buddyKeyCount, List.countP_cons]
      have hne : ¬((s.next_block_id == id0) = true) := by
        simp only [beq_iff_eq]; omega
      rw [if_neg hne]
      simp only [buddyKeyCount] at h1
      omega
    · show id0 < s.next_block_id + 1
      omega

theorem buddyAllocate_idsOk (s : BuddyState) (sz : Nat) (h : buddyIdsOk s) :
    buddyIdsOk (buddyAllocate s sz).2 := by
  unfold buddyAllocate
  dsimp only
  split
  · exact h
  · split
    · exact h
    · split
      · split
        · exact buddyIdsOk_update _ _ (buddySplitBlock_alloc _ _ _).1
            (buddySplitBlock_alloc _ _ _).2 h
        · exact buddyAllocFinish_idsOk _ _ _ _
            (buddyIdsOk_update _ _ (buddySplitBlock_alloc _ _ _).1
              (buddySplitBlock_alloc _ _ _).2 h)
      · exact buddyAllocFinish_idsOk _ _ _ _ h

theorem buddyAllocate_retired (s : BuddyState) (sz : Nat) (id0 : Nat)
    (h : buddyRetired s id0) : buddyRetired (buddyAllocate s sz).2 id0 := by
  unfold buddyAllocate
  dsimp only
  split
  · exact h
  · split
    · exact h
    · split
      · split
        · exact buddyRetired_update _ _ id0 (buddySplitBlock_alloc _ _ _).1
            (le_of_eq (buddySplitBlock_alloc _ _ _).2.symm) h
        · exact buddyAllocFinish_retired _ _ _ _ id0
            (buddyRetired_update _ _ id0 (buddySplitBlock_alloc _ _ _).1
              (le_of_eq (buddySplitBlock_alloc _ _ _).2.symm) h)
      · exact buddyAllocFinish_retired _ _ _ _ id0 h

theorem buddyDeallocate_idsOk (s : BuddyState) (idf : Nat) (h : buddyIdsOk s) :
    buddyIdsOk (buddyDeallocate s idf).2 := by
  unfold buddyDeallocate
  cases hfind : s.allocated_blocks.find? (fun pr => pr.1 == idf) with
  | none => exact h
  | some pr =>
    dsimp only
    refine buddyIdsOk_update _ _ (buddyMergeBlocks_alloc _ _ _ _).1
      (buddyMergeBlocks_alloc _ _ _ _).2 ?_
    intro id
    refine ⟨fun hge => ?_, ?_⟩
    · have h0 := (h id).1 hge
      have hle := countP_eraseP_le (fun pr2 => pr2.1 == idf)
        (fun pr2 => pr2.1 == id) s.allocated_blocks
      simp only [buddyKeyCount] at h0 ⊢
      omega
    · have h1 := (h id).2
      have hle := countP_eraseP_le (fun pr2 => pr2.1 == idf)
        (fun pr2 => pr2.1 == id) s.allocated_blocks
      simp only [buddyKeyCount] at h1 ⊢
      omega

theorem buddyDeallocate_retired_any (s : BuddyState) (idf id0 : Nat)
    (h : buddyRetired s id0) : buddyRetired (buddyDeallocate s idf).2 id0 := by
  unfold buddyDeallocate
  cases hfind : s.allocated_blocks.find? (fun pr => pr.1 == idf) with
  | none => exact h
  | some pr =>
    dsimp only
    refine buddyRetired_update _ _ id0 (buddyMergeBlocks_alloc _ _ _ _).1
      (le_of_eq (buddyMergeBlocks_alloc _ _ _ _).2.symm) ?_
    obtain ⟨h1, h2⟩ := h
    refine ⟨?_, h2⟩
    have hle := countP_eraseP_le (fun pr2 => pr2.1 == idf)
      (fun pr2 => pr2.1 == id0) s.allocated_blocks
    simp only [buddyKeyCount] at h1 ⊢
    omega

theorem buddyStep_idsOk (s : BuddyState) (op : BuddyOp) (h : buddyIdsOk s) :
    buddyIdsOk (buddyStep s op) := by
  cases op with
  | allocOp sz => exact buddyAllocate_idsOk s sz h
  | freeOp id => exact buddyDeallocate_idsOk s id h

theorem buddyRunOps_idsOk (ops : List BuddyOp) : ∀ s : BuddyState,
    buddyIdsOk s → buddyIdsOk (buddyRunOps s ops) := by
  induction ops with
  | nil => intro s h; exact h
  | cons op rest ih => intro s h; exact ih _ (buddyStep_idsOk s op h)

theorem buddyStep_retired (s : BuddyState) (op : BuddyOp) (id0 : Nat)
    (h : buddyRetired s id0) : buddyRetired (buddyStep s op) id0 := by
  cases op with
  | allocOp sz => exact buddyAllocate_retired s sz id0 h
  | freeOp id => exact buddyDeallocate_retired_any s id id0 h

theorem buddyRunOps_retired (id0 : Nat) (ops : List BuddyOp) : ∀ s : BuddyState,
    buddyRetired s id0 → buddyRetired (buddyRunOps s ops) id0 := by
  induction ops with
  | nil => intro s h; exact h
  | cons op rest ih => intro s h; exact ih _ (buddyStep_retired s op id0 h)

theorem buddyDeallocate_true_retired (s : BuddyState) (id0 : Nat)
    (h : buddyIdsOk s) (ht : (buddyDeallocate s id0).1 = true) :
    buddyRetired (buddyDeallocate s id0).2 id0 := by
  unfold buddyDeallocate at ht ⊢
  cases hfind : s.allocated_blocks.find? (fun pr => pr.1 == id0) with
  | none =>
    rw [hfind] at ht
    exact Bool.noConfusion ht
  | some pr =>
    have hp := List.find?_some hfind
    have hmem : pr ∈ s.allocated_blocks := List.mem_of_find?_eq_some hfind
    have hpos : 0 < s.allocated_blocks.countP (fun pr2 => pr2.1 == id0) :=
      List.countP_pos_iff.mpr ⟨pr, hmem, hp⟩
    dsimp only
    refine buddyRetired_update _ _ id0 (buddyMergeBlocks_alloc _ _ _ _).1
      (le_of_eq (buddyMergeBlocks_alloc _ _ _ _).2.symm) ?_
    refine ⟨?_, ?_⟩
    · have hle := (h id0).2
      simp only [buddyKeyCount] at hle ⊢
      exact countP_eraseP_self _ _ hle
    · by_contra hcon
      push_neg at hcon
      have h0 := (h id0).1 hcon
      simp only [buddyKeyCount] at h0
      omega

theorem buddyDeallocate_of_retired (s : BuddyState) (id0 : Nat)
    (h : buddyRetired s id0) : buddyDeallocate s id0 = (false, s) := by
  obtain ⟨h1, _⟩ := h
  have hnone : s.allocated_blocks.find? (fun pr => pr.1 == id0) = none := by
    apply find?_none_of_countP_zero
    simpa [buddyKeyCount] using h1
  unfold buddyDeallocate
  rw [hnone]

theorem buddy_double_free (mem mn : Nat) (ops1 : List BuddyOp) (id0 : Nat)
    (ops2 : List BuddyOp)
    (h : (buddyDeallocate (buddyRunOps (buddyInit mem mn) ops1) id0).1 = true) :
    buddyDeallocate
        (buddyRunOps (buddyDeallocate (buddyRunOps (buddyInit mem mn) ops1) id0).2 ops2) id0
      = (false,
         buddyRunOps (buddyDeallocate (buddyRunOps (buddyInit mem mn) ops1) id0).2 ops2) := by
  have hok : buddyIdsOk (buddyRunOps (buddyInit mem mn) ops1) :=
    buddyRunOps_idsOk ops1 _ (buddyInit_idsOk mem mn)
  have hret := buddyDeallocate_true_retired _ id0 hok h
  have hret2 := buddyRunOps_retired id0 ops2 _ hret
  exact buddyDeallocate_of_retired _ id0 hret2

/-- C10: in both allocators a double free fails.  Whenever a run of the
contiguous allocator (from MemoryManager's constructor) reaches a state
in which deallocate(id0) returns true, any later deallocate(id0) - after
any further operations - returns false and leaves the state unchanged;
and likewise for the buddy allocator from BuddyAllocator's constructor.
Ids are never reused because next_block_id only increments. -/
theorem c10_double_free_fails :
    (∀ (size : Nat) (ops1 : List MMOp) (id0 : Int) (ops2 : List MMOp),
      (mmDeallocate (mmRunOps (mmInit size) ops1) id0).1 = true →
      mmDeallocate (mmRunOps (mmDeallocate (mmRunOps (mmInit size) ops1) id0).2 ops2) id0
        = (false, mmRunOps (mmDeallocate (mmRunOps (mmInit size) ops1) id0).2 ops2)) ∧
    (∀ (mem mn : Nat) (ops1 : List BuddyOp) (id0 : Nat) (ops2 : List BuddyOp),
      (buddyDeallocate (buddyRunOps (buddyInit mem mn) ops1) id0).1 = true →
      buddyDeallocate
          (buddyRunOps (buddyDeallocate (buddyRunOps (buddyInit mem mn) ops1) id0).2 ops2) id0
        = (false,
           buddyRunOps (buddyDeallocate (buddyRunOps (buddyInit mem mn) ops1) id0).2 ops2)) :=
  ⟨fun size ops1 id0 ops2 h => mm_double_free size ops1 id0 ops2 h,
   fun mem mn ops1 id0 ops2 h => buddy_double_free mem mn ops1 id0 ops2 h⟩

/-- Witness for C10: a concrete double free in each allocator.  In a
64-byte contiguous arena, allocate 16 bytes (block id 1), free id 1
(returns true), free id 1 again: false and no mutation.  In a 64-byte
buddy arena with minimum block 16, the same scenario with block id 1. -/
theorem c10_double_free_fails_witness :
    ((mmDeallocate (mmRunOps (mmInit 64) [MMOp.mallocOp 16]) 1).1 = true ∧
      mmDeallocate (mmRunOps (mmDeallocate (mmRunOps (mmInit 64) [MMOp.mallocOp 16]) 1).2 []) 1
        = (false, mmRunOps (mmDeallocate (mmRunOps (mmInit 64) [MMOp.mallocOp 16]) 1).2 [])) ∧
    ((buddyDeallocate (buddyRunOps (buddyInit 64 16) [BuddyOp.allocOp 16]) 1).1 = true ∧
      buddyDeallocate
          (buddyRunOps (buddyDeallocate (buddyRunOps (buddyInit 64 16) [BuddyOp.allocOp 16]) 1).2 []) 1
        = (false,
           buddyRunOps (buddyDeallocate (buddyRunOps (buddyInit 64 16) [BuddyOp.allocOp 16]) 1).2 [])) :=
  ⟨⟨by decide, c10_double_free_fails.1 64 [MMOp.mallocOp 16] 1 [] (by decide)⟩,
   ⟨by decide, c10_double_free_fails.2 64 16 [BuddyOp.allocOp 16] 1 [] (by decide)⟩⟩
